import Mathlib

/-!
Formal model of `tiingo_rest_client.py` (class `TiingoRESTClient`).

Python strings are modelled as `List Char`; the HTTP transport is modelled
as an oracle function from request URL to response body; pandas dataframes
are an abstract type parameter, with the JSON/CSV parsing steps modelled as
oracle functions returning `Option` (a `none` result models a raised parse
exception).  Warnings printed to the console are collected in a list.
-/

namespace TiingoModel

/-- Characters of a Python string. -/
abbrev Chars := List Char

/-- Character list of a string literal. -/
def chars (s : String) : Chars := s.toList

/-- `TiingoRESTClient._tii_eod`: base URL for end-of-day data. -/
def tii_eod : Chars := chars "https://api.tiingo.com/tiingo/daily/"

/-- `TiingoRESTClient._tii_iex`: base URL for intraday data. -/
def tii_iex : Chars := chars "https://api.tiingo.com/iex/"

/-- `TiingoRESTClient._tii_eod_cols`: column whitelist for end-of-day data. -/
def tii_eod_cols : List Chars :=
  [chars "open", chars "high", chars "low", chars "close", chars "volume",
   chars "adjOpen", chars "adjHigh", chars "adjLow", chars "adjClose",
   chars "adjVolume", chars "divCash", chars "splitFactor"]

/-- `TiingoRESTClient._tii_iex_hist_cols`: column whitelist for intraday
historical data. -/
def tii_iex_hist_cols : List Chars :=
  [chars "open", chars "high", chars "low", chars "close", chars "volume"]

/-- `TiingoRESTClient._tii_iex_last_cols`: column whitelist for intraday
last-price data. -/
def tii_iex_last_cols : List Chars :=
  [chars "timestamp", chars "quoteTimestamp", chars "lastSaleTimestamp",
   chars "last", chars "lastSize", chars "tngoLast", chars "prevClose",
   chars "open", chars "high", chars "low", chars "mid", chars "volume",
   chars "bidSize", chars "bidPrice", chars "askSize", chars "askPrice"]

/-- `TiingoRESTClient._tii_resample_freqs`: the fixed end-of-day resample
frequencies. -/
def tii_resample_freqs : List Chars :=
  [chars "daily", chars "weekly", chars "monthly", chars "annually"]

/-- A character in the regex class `[0-9]`. -/
def isDigitChar (c : Char) : Bool := 48 ≤ c.toNat && c.toNat ≤ 57

/-- Model of `re.match(self._tii_resample_pattern, s)` succeeding, where
`_tii_resample_pattern` is the fully anchored regex for one-or-more digits
followed by `min` or `hour`.  Since `min`/`hour` start with a non-digit, a
match exists exactly when the maximal digit prefix is non-empty and the
remainder is literally `min` or `hour`. -/
def matchesResamplePattern (s : Chars) : Bool :=
  decide (s.takeWhile isDigitChar ≠ []) &&
    (s.dropWhile isDigitChar == chars "min" ||
      s.dropWhile isDigitChar == chars "hour")

/-- The language of the anchored regex pattern, stated the way the spec
states it: one or more digits followed by `min` or `hour`, matching the
whole token. -/
def PatternLang (s : Chars) : Prop :=
  ∃ ds suf, ds ≠ [] ∧ (∀ c ∈ ds, isDigitChar c = true) ∧
    (suf = chars "min" ∨ suf = chars "hour") ∧ s = ds ++ suf

/-- Numeric value of a digit character. -/
def digitVal (c : Char) : Nat := c.toNat - 48

/-- Gregorian leap-year test, as in `calendar`/`datetime`. -/
def isLeapYear (y : Nat) : Bool := (y % 4 == 0 && y % 100 != 0) || y % 400 == 0

/-- Number of days of month `m` in year `y` (Gregorian calendar). -/
def daysInMonth (y m : Nat) : Nat :=
  if m = 2 then (if isLeapYear y then 29 else 28)
  else if m = 4 ∨ m = 6 ∨ m = 9 ∨ m = 11 then 30
  else 31

/-- Model of `datetime.date.fromisoformat(s)` succeeding: `s` must be of the
exact shape `YYYY-MM-DD` with all-digit fields that denote an existing
calendar date; `datetime.MINYEAR = 1`, so the year field must be non-zero
(four digits bound it by 9999 = `datetime.MAXYEAR` automatically). -/
def fromisoformatOk (s : Chars) : Bool :=
  match s with
  | [y1, y2, y3, y4, '-', m1, m2, '-', d1, d2] =>
    isDigitChar y1 && isDigitChar y2 && isDigitChar y3 && isDigitChar y4 &&
    isDigitChar m1 && isDigitChar m2 && isDigitChar d1 && isDigitChar d2 &&
    (let y := 1000 * digitVal y1 + 100 * digitVal y2 + 10 * digitVal y3 + digitVal y4
     let m := 10 * digitVal m1 + digitVal m2
     let d := 10 * digitVal d1 + digitVal d2
     decide (1 ≤ y) && decide (1 ≤ m) && decide (m ≤ 12) &&
       decide (1 ≤ d) && decide (d ≤ daysInMonth y m))
  | _ => false

/-- `TiingoRESTClient._is_valid_date`: the empty string is valid, any other
string is valid exactly when `date.fromisoformat` accepts it (the
`try/except` returns `False` on the raised `ValueError`). -/
def is_valid_date (s : Chars) : Bool := s == [] || fromisoformatOk s

/-- Zero-padded decimal digit character. -/
def digitChar (n : Nat) : Char := Char.ofNat (48 + n)

/-- Two-digit zero-padded rendering of a number below 100. -/
def natDigits2 (n : Nat) : Chars := [digitChar (n / 10 % 10), digitChar (n % 10)]

/-- Four-digit zero-padded rendering of a number below 10000. -/
def natDigits4 (n : Nat) : Chars :=
  [digitChar (n / 1000 % 10), digitChar (n / 100 % 10),
   digitChar (n / 10 % 10), digitChar (n % 10)]

/-- Modelled from the spec's words: `s` is an ISO-8601 calendar date written
`YYYY-MM-DD`, i.e. the zero-padded rendering of an existing date of the
Gregorian calendar (which has no year zero; four-digit years stop at 9999). -/
def IsIsoCalendarDate (s : Chars) : Prop :=
  ∃ y m d : Nat,
    1 ≤ y ∧ y ≤ 9999 ∧ 1 ≤ m ∧ m ≤ 12 ∧ 1 ≤ d ∧ d ≤ daysInMonth y m ∧
    s = natDigits4 y ++ '-' :: natDigits2 m ++ '-' :: natDigits2 d

/-- Console warnings printed by the client. -/
inductive Warning where
  /-- `_validate_cols` was called with an unrecognized endpoint identifier. -/
  | badEndpoint : Warning
  /-- `_validate_cols` removed a column name that is not in the whitelist. -/
  | badColumn (name : Chars) : Warning
  /-- `get_stock_hist` dropped a ticker whose response failed to parse; the
  warning carries the upper-cased ticker and the raw response payload. -/
  | badTicker (ticker : Chars) (payload : Chars) : Warning
  deriving DecidableEq

/-- The selection loop of `_validate_cols`: keep the names found in
`valid_names` (in order), print a warning for each name that is not. -/
def selectCols (valid_names : List Chars) : List Chars → List Chars × List Warning
  | [] => ([], [])
  | c :: rest =>
    let r := selectCols valid_names rest
    if c ∈ valid_names then (c :: r.1, r.2)
    else (r.1, Warning.badColumn c :: r.2)

/-- `TiingoRESTClient._validate_cols`: pick the whitelist from the endpoint
identifier; an unrecognized identifier warns and yields no column filter. -/
def validate_cols (endpoint : Chars) (columns : List Chars) :
    List Chars × List Warning :=
  if endpoint = chars "eod" then selectCols tii_eod_cols columns
  else if endpoint = chars "iex_last" then selectCols tii_iex_last_cols columns
  else if endpoint = chars "iex_hist" then selectCols tii_iex_hist_cols columns
  else ([], [Warning.badEndpoint])

/-- Model of `",".join(l)`. -/
def joinComma : List Chars → Chars
  | [] => []
  | [c] => c
  | c :: c2 :: rest => c ++ ',' :: joinComma (c2 :: rest)

/-- `TiingoRESTClient._build_pre_query`: the URL template in which the
literal word `ticker` stands for the ticker symbol. -/
def build_pre_query (endpoint : Chars) (columns : List Chars)
    (start send : Chars) (resample : Chars) : Chars :=
  let cols := if columns ≠ [] then chars "&columns=" ++ joinComma columns else []
  let freq := chars "&resampleFreq=" ++ resample
  let start_date := if start ≠ [] then chars "&startDate=" ++ start else []
  let end_date := if send ≠ [] then chars "&endDate=" ++ send else []
  endpoint ++ chars "ticker/prices?format=json" ++ freq ++ cols ++
    start_date ++ end_date

/-- The placeholder word substituted by `str.replace`. -/
def tickerPat : Chars := chars "ticker"

/-- Does `p` lead the list `s` (i.e. is `p` an initial segment of `s`)? -/
def leadsWith : Chars → Chars → Bool
  | [], _ => true
  | _ :: _, [] => false
  | a :: as, b :: bs => a == b && leadsWith as bs

/-- Fuel-driven worker for `replaceTicker`; scans left to right, replacing
each non-overlapping occurrence of the word `ticker` by `rep`, exactly as
Python's `str.replace("ticker", rep)` does.  The fuel only serves structural
recursion; it is always instantiated with the length of the scanned list. -/
def replaceTickerGo (rep : Chars) : Nat → Chars → Chars
  | _, [] => []
  | 0, c :: cs => c :: cs
  | fuel + 1, c :: cs =>
    if leadsWith tickerPat (c :: cs) then
      rep ++ replaceTickerGo rep fuel (cs.drop 5)
    else c :: replaceTickerGo rep fuel cs

/-- Model of `s.replace("ticker", rep)` from `get_stock_hist`. -/
def replaceTicker (rep s : Chars) : Chars := replaceTickerGo rep s.length s

/-- Model of Python's `str.upper` (ASCII case). -/
def pyUpper (s : Chars) : Chars := s.map Char.toUpper

/-- The single exception kind raised by the client (`TiingoError`); each
constructor records the data interpolated into the exception message. -/
inductive TiingoError where
  /-- Raised by `__init__` when the provider rejects the auth token; carries
  the token and the provider's rejection payload echoed in the message. -/
  | authRejected (token : Chars) (response : Chars) : TiingoError
  /-- Raised by `get_stock_hist` on an unrecognized frequency; the message
  enumerates the valid end-of-day alternatives. -/
  | invalidFrequency (frequency : Chars) (validAlternatives : List Chars) : TiingoError
  /-- Raised by `get_stock_hist` when a date string is not `YYYY-MM-DD`. -/
  | invalidDate : TiingoError
  deriving DecidableEq

/-- Outcome of the frequency classification in `get_stock_hist`
(`re.match` branch, fixed-membership branch, error branch). -/
inductive FreqClass where
  | intraday : FreqClass
  | eodFixed : FreqClass
  | invalid : FreqClass
  deriving DecidableEq

/-- The `if`/`elif`/`else` classification of the `frequency` argument at the
top of `get_stock_hist`: the regex is tried first, then membership in the
fixed end-of-day frequencies, anything else is invalid. -/
def classifyFrequency (f : Chars) : FreqClass :=
  if matchesResamplePattern f then FreqClass.intraday
  else if f ∈ tii_resample_freqs then FreqClass.eodFixed
  else FreqClass.invalid

/-- Base URL chosen for each frequency class (`end_point` in the code). -/
def endpointFor : FreqClass → Option Chars
  | FreqClass.intraday => some tii_iex
  | FreqClass.eodFixed => some tii_eod
  | FreqClass.invalid => none

/-- Endpoint identifier passed to `_validate_cols` for each frequency
class. -/
def whitelistIdFor : FreqClass → Option Chars
  | FreqClass.intraday => some (chars "iex_hist")
  | FreqClass.eodFixed => some (chars "eod")
  | FreqClass.invalid => none

/-- Shape of the combined dataframe built at the end of `get_stock_hist`,
with the per-ticker dataframes abstract.  `sideBySide` records the
column-per-ticker concatenation (`pd.concat(axis=1)` relabelled with the
surviving tickers); `stacked` records the row-stacked concatenation keyed by
the two-level `(ticker, date)` index (`pd.concat(keys=valid_tickers,
names=["ticker"])`). -/
inductive Combined (DF : Type) where
  | empty : Combined DF
  | single (df : DF) : Combined DF
  | sideBySide (labelled : List (Chars × DF)) : Combined DF
  | stacked (keyed : List (Chars × DF)) : Combined DF
  deriving DecidableEq

/-- Exceptions of `get_stock_hist` that are neither raised as `TiingoError`
nor caught: they escape the method and abort the whole call. -/
inductive PyExc where
  /-- `KeyError` raised by `px.set_index("date")` — that call sits in the
  `else:` branch, outside the `try`, so it is not caught. -/
  | setIndexKeyError (ticker : Chars) : PyExc
  /-- Exception raised by `r.json()` inside the `except:` handler while
  building the warning text — nothing catches an exception raised there. -/
  | warnPayloadError (ticker : Chars) : PyExc
  /-- `ValueError` raised by `df.columns = valid_tickers` when the number of
  columns of the concatenated frame differs from the number of surviving
  tickers. -/
  | relabelValueError : PyExc
  deriving DecidableEq

/-- Everything a `get_stock_hist` call can raise: the deliberately raised
`TiingoError`, or an uncaught exception escaping the loop or composition. -/
inductive HistRaise where
  | tiingoError (e : TiingoError) : HistRaise
  | uncaught (e : PyExc) : HistRaise
  deriving DecidableEq

/-- The dataframe-composition cases at the end of `get_stock_hist`.  The
side-by-side case tests the length of the *requested* `columns` argument,
not of the validated columns — exactly as the code does — and then models
`df.columns = valid_tickers`: pandas accepts the relabelling only when the
concatenated frame has exactly one column per label, i.e. when the column
counts of the surviving frames (given by the `ncols` oracle) sum to the
number of survivors; otherwise it raises `ValueError`, uncaught. -/
def composeFrames {DF : Type} (ncols : DF → Nat) (columns : List Chars)
    (survivors : List (Chars × DF)) : Except PyExc (Combined DF) :=
  match survivors with
  | [] => Except.ok Combined.empty
  | [s] => Except.ok (Combined.single s.2)
  | _ =>
    if columns.length = 1 then
      if (survivors.map (fun s => ncols s.2)).sum = survivors.length then
        Except.ok (Combined.sideBySide survivors)
      else Except.error PyExc.relabelValueError
    else Except.ok (Combined.stacked survivors)

/-- Result of the per-ticker request loop of `get_stock_hist`: the URLs
actually requested (in order), the warnings actually printed, and either
the surviving `(ticker, dataframe)` pairs (the code's `valid_tickers` and
`data` lists, zipped) or the uncaught exception that aborted the loop. -/
structure LoopOut (DF : Type) where
  requests : List Chars
  warnings : List Warning
  outcome : Except PyExc (List (Chars × DF))

/-- The request loop of `get_stock_hist`, with the exception structure of
the source: per ticker, substitute it into the pre-built query, issue the
GET, and try `pd.read_json` (`parse`).  On success the `else:` branch runs
`px.set_index("date")` (`setIndex`) — which is *outside* the `try`, so its
failure aborts the loop.  On parse failure the `except:` handler prints a
warning whose payload is `r.json()` (`jsonOf`) — a failure there also
aborts the loop; otherwise the ticker is dropped and the loop continues. -/
def fetchLoop {DF : Type} (fetch : Chars → Chars) (parse : Chars → Option DF)
    (setIndex : DF → Option DF) (jsonOf : Chars → Option Chars)
    (pre : Chars) : List Chars → LoopOut DF
  | [] => LoopOut.mk [] [] (Except.ok [])
  | t :: ts =>
    match parse (fetch (replaceTicker t pre)) with
    | some px =>
      match setIndex px with
      | some px2 =>
        let r := fetchLoop fetch parse setIndex jsonOf pre ts
        LoopOut.mk (replaceTicker t pre :: r.requests) r.warnings
          (r.outcome.map (fun svs => (t, px2) :: svs))
      | none =>
        LoopOut.mk [replaceTicker t pre] []
          (Except.error (PyExc.setIndexKeyError t))
    | none =>
      match jsonOf (fetch (replaceTicker t pre)) with
      | some payload =>
        let r := fetchLoop fetch parse setIndex jsonOf pre ts
        LoopOut.mk (replaceTicker t pre :: r.requests)
          (Warning.badTicker (pyUpper t) payload :: r.warnings) r.outcome
      | none =>
        LoopOut.mk [replaceTicker t pre] []
          (Except.error (PyExc.warnPayloadError t))

/-- Observable outcome of one `get_stock_hist` call: the returned dataframe
or the raised exception, the URLs requested over the network (in order),
and the warnings printed. -/
structure HistCall (DF : Type) where
  result : Except HistRaise (Combined DF)
  requests : List Chars
  warnings : List Warning

/-- `TiingoRESTClient.get_stock_hist` on an already-normalized ticker list.
`fetch` models the HTTP transport (URL to response body); `parse` models
`pd.read_json` on a body (`none` models the exception caught by the
`try`); `setIndex` models `px.set_index("date")` on the parsed frame
(`none` models its uncaught `KeyError`); `jsonOf` models `r.json()` on a
body (`none` models an uncaught decode failure inside the `except:`
handler); `ncols` gives the column count of a re-indexed frame, used by the
side-by-side relabelling. -/
def get_stock_hist {DF : Type} (fetch : Chars → Chars)
    (parse : Chars → Option DF) (setIndex : DF → Option DF)
    (jsonOf : Chars → Option Chars) (ncols : DF → Nat)
    (tickers : List Chars) (frequency : Chars)
    (start send : Chars) (columns : List Chars) : HistCall DF :=
  if classifyFrequency frequency = FreqClass.invalid then
    HistCall.mk
      (Except.error (HistRaise.tiingoError
        (TiingoError.invalidFrequency frequency tii_resample_freqs)))
      [] []
  else if ¬ (is_valid_date start = true) ∨ ¬ (is_valid_date send = true) then
    HistCall.mk (Except.error (HistRaise.tiingoError TiingoError.invalidDate))
      []
      (validate_cols
        ((whitelistIdFor (classifyFrequency frequency)).getD []) columns).2
  else
    HistCall.mk
      (match (fetchLoop fetch parse setIndex jsonOf
          (build_pre_query ((endpointFor (classifyFrequency frequency)).getD [])
            (validate_cols
              ((whitelistIdFor (classifyFrequency frequency)).getD []) columns).1
            start send frequency) tickers).outcome with
        | Except.error e => Except.error (HistRaise.uncaught e)
        | Except.ok svs =>
          match composeFrames ncols columns svs with
          | Except.error e => Except.error (HistRaise.uncaught e)
          | Except.ok t => Except.ok t)
      (fetchLoop fetch parse setIndex jsonOf
        (build_pre_query ((endpointFor (classifyFrequency frequency)).getD [])
          (validate_cols
            ((whitelistIdFor (classifyFrequency frequency)).getD []) columns).1
          start send frequency) tickers).requests
      ((validate_cols
          ((whitelistIdFor (classifyFrequency frequency)).getD []) columns).2 ++
        (fetchLoop fetch parse setIndex jsonOf
          (build_pre_query ((endpointFor (classifyFrequency frequency)).getD [])
            (validate_cols
              ((whitelistIdFor (classifyFrequency frequency)).getD []) columns).1
            start send frequency) tickers).warnings)

/-- `get_stock_hist` called with a single ticker string: the
`isinstance(tickers, str)` branch wraps it in a one-element list. -/
def get_stock_hist_str {DF : Type} (fetch : Chars → Chars)
    (parse : Chars → Option DF) (setIndex : DF → Option DF)
    (jsonOf : Chars → Option Chars) (ncols : DF → Nat)
    (ticker : Chars) (frequency : Chars)
    (start send : Chars) (columns : List Chars) : HistCall DF :=
  get_stock_hist fetch parse setIndex jsonOf ncols [ticker] frequency
    start send columns

/-- Observable outcome of one `get_stock_last` call.  The parse error
constructor models the `pd.read_csv` exception propagating to the caller. -/
structure LastCall (DF : Type) where
  result : Except Unit DF
  requests : List Chars
  warnings : List Warning

/-- `TiingoRESTClient.get_stock_last` on an already-normalized ticker list.
`parseCsv` models `pd.read_csv(..., index_col="ticker")` on the response
body: a table indexed by the `ticker` column, or a raised parse error. -/
def get_stock_last {DF : Type} (fetch : Chars → Chars)
    (parseCsv : Chars → Option DF) (tickers : List Chars)
    (columns : List Chars) : LastCall DF :=
  let base := tii_iex ++ chars "?tickers=" ++ joinComma tickers ++
    chars "&format=csv"
  let vc := validate_cols (chars "iex_last") columns
  let url := if vc.1 ≠ [] then base ++ chars "&columns=" ++ joinComma vc.1
             else base
  match parseCsv (fetch url) with
  | some df => LastCall.mk (Except.ok df) [url] vc.2
  | none => LastCall.mk (Except.error ()) [url] vc.2

/-- `get_stock_last` called with a single ticker string: the
`isinstance(tickers, str)` branch wraps it in a one-element list. -/
def get_stock_last_str {DF : Type} (fetch : Chars → Chars)
    (parseCsv : Chars → Option DF) (ticker : Chars) (columns : List Chars) :
    LastCall DF :=
  get_stock_last fetch parseCsv [ticker] columns

/-- The client object: after `__init__`, the only instance attribute is
`self._tii_headers`. -/
structure Client where
  headers : List (Chars × Chars)
  deriving DecidableEq

/-- The header dictionary built in `__init__`. -/
def mkHeaders (token : Chars) : List (Chars × Chars) :=
  [(chars "Content-Type", chars "application/json"),
   (chars "Authorization", chars "Token " ++ token)]

/-- URL of the token-validation request issued by `__init__`. -/
def tokenCheckUrl (token : Chars) : Chars :=
  chars "https://api.tiingo.com/api/test?token=" ++ token

/-- Observable outcome of client construction. -/
structure InitCall where
  result : Except TiingoError Client
  requests : List Chars

/-- `TiingoRESTClient.__init__`: build the headers, issue one validation
request, and raise exactly when the `message` field of the provider's JSON
response equals the rejection text.  `fetchMessage` models the transport
composed with extracting the `message` field of the JSON body (the
token-check endpoint always answers with a `message` object). -/
def clientInit (fetchMessage : Chars → Chars) (token : Chars) : InitCall :=
  let msg := fetchMessage (tokenCheckUrl token)
  if msg = chars "Auth Token was not correct" then
    InitCall.mk (Except.error (TiingoError.authRejected token msg))
      [tokenCheckUrl token]
  else
    InitCall.mk (Except.ok (Client.mk (mkHeaders token))) [tokenCheckUrl token]

/-- `TiingoRESTClient.get_stock_metadata`: one GET to the end-of-day
metadata resource, body returned verbatim.  Threaded through the client
state explicitly: the method reads `self._tii_headers` but assigns no
attribute, so the state it returns is the state it received. -/
def get_stock_metadata (fetch : Chars → Chars) (c : Client)
    (ticker : Chars) : Client × Chars :=
  (c, fetch (tii_eod ++ ticker))

/-- `get_stock_hist` as a state-threaded method on the client. -/
def get_stock_hist_op {DF : Type} (fetch : Chars → Chars)
    (parse : Chars → Option DF) (setIndex : DF → Option DF)
    (jsonOf : Chars → Option Chars) (ncols : DF → Nat)
    (c : Client) (tickers : List Chars)
    (frequency : Chars) (start send : Chars) (columns : List Chars) :
    Client × HistCall DF :=
  (c, get_stock_hist fetch parse setIndex jsonOf ncols tickers frequency
    start send columns)

/-- `get_stock_last` as a state-threaded method on the client. -/
def get_stock_last_op {DF : Type} (fetch : Chars → Chars)
    (parseCsv : Chars → Option DF) (c : Client) (tickers : List Chars)
    (columns : List Chars) : Client × LastCall DF :=
  (c, get_stock_last fetch parseCsv tickers columns)

/-- One public call on the client, with its arguments. -/
inductive Call where
  | metadata (ticker : Chars) : Call
  | hist (tickers : List Chars) (frequency : Chars) (start send : Chars)
      (columns : List Chars) : Call
  | quote (tickers : List Chars) (columns : List Chars) : Call

/-- Run one public call, returning the client state it leaves behind. -/
def runCall (DF : Type) (fetch : Chars → Chars) (parse : Chars → Option DF)
    (setIndex : DF → Option DF) (jsonOf : Chars → Option Chars)
    (ncols : DF → Nat) (parseCsv : Chars → Option DF) (c : Client) :
    Call → Client
  | Call.metadata t => (get_stock_metadata fetch c t).1
  | Call.hist ts f s e cols =>
    (get_stock_hist_op fetch parse setIndex jsonOf ncols c ts f s e cols).1
  | Call.quote ts cols => (get_stock_last_op fetch parseCsv c ts cols).1

/-- Run a sequence of public calls from a client state. -/
def runCalls (DF : Type) (fetch : Chars → Chars) (parse : Chars → Option DF)
    (setIndex : DF → Option DF) (jsonOf : Chars → Option Chars)
    (ncols : DF → Nat) (parseCsv : Chars → Option DF) (c : Client) :
    List Call → Client
  | [] => c
  | k :: ks => runCalls DF fetch parse setIndex jsonOf ncols parseCsv
      (runCall DF fetch parse setIndex jsonOf ncols parseCsv c k) ks

/-- The pre-query built inside `get_stock_hist` once the frequency has been
classified as `fc`. -/
def histPreQuery (f start send : Chars) (columns : List Chars)
    (fc : FreqClass) : Chars :=
  build_pre_query ((endpointFor fc).getD [])
    (validate_cols ((whitelistIdFor fc).getD []) columns).1 start send f

/-- Scan used to bound where the letter `k` may occur: `kAfterEAux p s`
holds when every `k` in `s` is immediately preceded by an `e` (with `p`
standing for the character preceding the head of `s`).  The word `ticker`
has its `k` after a `c`, so no string passing this scan contains an
occurrence of `ticker`. -/
def kAfterEAux (prev : Char) : Chars → Bool
  | [] => true
  | c :: rest => (if c = 'k' then prev == 'e' else true) && kAfterEAux c rest

/-- The single URL requested by `get_stock_last`: the intraday base with
the comma-joined tickers and CSV format flag, plus the validated-columns
component exactly when some requested column survived the whitelist. -/
def lastUrl (tickers columns : List Chars) : Chars :=
  if (validate_cols (chars "iex_last") columns).1 ≠ [] then
    tii_iex ++ chars "?tickers=" ++ joinComma tickers ++ chars "&format=csv" ++
      chars "&columns=" ++ joinComma (validate_cols (chars "iex_last") columns).1
  else
    tii_iex ++ chars "?tickers=" ++ joinComma tickers ++ chars "&format=csv"

/-- Last element of a list, or `d` when the list is empty. -/
def lastOr (d : Char) : Chars → Char
  | [] => d
  | c :: cs => lastOr c cs

/-- The part of each historical-data URL that follows the ticker symbol,
right-associated for splicing proofs. -/
def histTail (f : Chars) (vcols : List Chars) (start send : Chars) : Chars :=
  chars "/prices?format=json" ++ (chars "&resampleFreq=" ++ (f ++
    ((if vcols ≠ [] then chars "&columns=" ++ joinComma vcols else []) ++
      ((if start ≠ [] then chars "&startDate=" ++ start else []) ++
        (if send ≠ [] then chars "&endDate=" ++ send else [])))))

/-! ## Supporting lemmas: digits and dates -/

theorem digit_toNat (c : Char) (h : isDigitChar c = true) :
    48 ≤ c.toNat ∧ c.toNat ≤ 57 := by
  unfold isDigitChar at h
  simp only [Bool.and_eq_true, decide_eq_true_eq] at h
  exact h

theorem digitVal_le (c : Char) (h : isDigitChar c = true) : digitVal c ≤ 9 := by
  obtain ⟨h1, h2⟩ := digit_toNat c h
  unfold digitVal
  omega

theorem digitChar_digitVal (c : Char) (h : isDigitChar c = true) :
    digitChar (digitVal c) = c := by
  obtain ⟨h1, h2⟩ := digit_toNat c h
  unfold digitChar digitVal
  have e : 48 + (c.toNat - 48) = c.toNat := by omega
  rw [e, Char.ofNat_toNat]

theorem isDigitChar_digitChar (k : Nat) (h : k ≤ 9) :
    isDigitChar (digitChar k) = true := by
  interval_cases k <;> decide

theorem digitVal_digitChar (k : Nat) (h : k ≤ 9) : digitVal (digitChar k) = k := by
  interval_cases k <;> decide

theorem daysInMonth_le (y m : Nat) : daysInMonth y m ≤ 31 := by
  unfold daysInMonth
  split
  · split <;> omega
  · split <;> omega

theorem fromisoformatOk_iff (s : Chars) :
    fromisoformatOk s = true ↔ IsIsoCalendarDate s := by
  constructor
  · intro h
    unfold fromisoformatOk at h
    split at h
    case _ y1 y2 y3 y4 m1 m2 d1 d2 =>
      simp only [Bool.and_eq_true, decide_eq_true_eq] at h
      obtain ⟨⟨⟨⟨⟨⟨⟨⟨hy1, hy2⟩, hy3⟩, hy4⟩, hm1⟩, hm2⟩, hd1⟩, hd2⟩, hv⟩ := h
      obtain ⟨⟨⟨⟨hvy, hvm1⟩, hvm2⟩, hvd1⟩, hvd2⟩ := hv
      have by1 := digitVal_le y1 hy1
      have by2 := digitVal_le y2 hy2
      have by3 := digitVal_le y3 hy3
      have by4 := digitVal_le y4 hy4
      have bm1 := digitVal_le m1 hm1
      have bm2 := digitVal_le m2 hm2
      have bd1 := digitVal_le d1 hd1
      have bd2 := digitVal_le d2 hd2
      refine ⟨1000 * digitVal y1 + 100 * digitVal y2 + 10 * digitVal y3 + digitVal y4,
        10 * digitVal m1 + digitVal m2, 10 * digitVal d1 + digitVal d2,
        hvy, by omega, hvm1, hvm2, hvd1, hvd2, ?_⟩
      unfold natDigits4 natDigits2
      have e1 : (1000 * digitVal y1 + 100 * digitVal y2 + 10 * digitVal y3 +
          digitVal y4) / 1000 % 10 = digitVal y1 := by omega
      have e2 : (1000 * digitVal y1 + 100 * digitVal y2 + 10 * digitVal y3 +
          digitVal y4) / 100 % 10 = digitVal y2 := by omega
      have e3 : (1000 * digitVal y1 + 100 * digitVal y2 + 10 * digitVal y3 +
          digitVal y4) / 10 % 10 = digitVal y3 := by omega
      have e4 : (1000 * digitVal y1 + 100 * digitVal y2 + 10 * digitVal y3 +
          digitVal y4) % 10 = digitVal y4 := by omega
      have e5 : (10 * digitVal m1 + digitVal m2) / 10 % 10 = digitVal m1 := by omega
      have e6 : (10 * digitVal m1 + digitVal m2) % 10 = digitVal m2 := by omega
      have e7 : (10 * digitVal d1 + digitVal d2) / 10 % 10 = digitVal d1 := by omega
      have e8 : (10 * digitVal d1 + digitVal d2) % 10 = digitVal d2 := by omega
      rw [e1, e2, e3, e4, e5, e6, e7, e8,
        digitChar_digitVal y1 hy1, digitChar_digitVal y2 hy2,
        digitChar_digitVal y3 hy3, digitChar_digitVal y4 hy4,
        digitChar_digitVal m1 hm1, digitChar_digitVal m2 hm2,
        digitChar_digitVal d1 hd1, digitChar_digitVal d2 hd2]
      rfl
    case _ => exact absurd h (by simp)
  · rintro ⟨y, m, d, hy1, hy2, hm1, hm2, hd1, hd2, rfl⟩
    have hd31 : d ≤ 31 := le_trans hd2 (daysInMonth_le y m)
    have q1 : y / 1000 % 10 ≤ 9 := by omega
    have q2 : y / 100 % 10 ≤ 9 := by omega
    have q3 : y / 10 % 10 ≤ 9 := by omega
    have q4 : y % 10 ≤ 9 := by omega
    have q5 : m / 10 % 10 ≤ 9 := by omega
    have q6 : m % 10 ≤ 9 := by omega
    have q7 : d / 10 % 10 ≤ 9 := by omega
    have q8 : d % 10 ≤ 9 := by omega
    show fromisoformatOk
      [digitChar (y / 1000 % 10), digitChar (y / 100 % 10),
       digitChar (y / 10 % 10), digitChar (y % 10), '-',
       digitChar (m / 10 % 10), digitChar (m % 10), '-',
       digitChar (d / 10 % 10), digitChar (d % 10)] = true
    unfold fromisoformatOk
    simp only [Bool.and_eq_true, decide_eq_true_eq,
      isDigitChar_digitChar _ q1, isDigitChar_digitChar _ q2,
      isDigitChar_digitChar _ q3, isDigitChar_digitChar _ q4,
      isDigitChar_digitChar _ q5, isDigitChar_digitChar _ q6,
      isDigitChar_digitChar _ q7, isDigitChar_digitChar _ q8,
      digitVal_digitChar _ q1, digitVal_digitChar _ q2,
      digitVal_digitChar _ q3, digitVal_digitChar _ q4,
      digitVal_digitChar _ q5, digitVal_digitChar _ q6,
      digitVal_digitChar _ q7, digitVal_digitChar _ q8,
      true_and, and_true]
    have ey : 1000 * (y / 1000 % 10) + 100 * (y / 100 % 10) +
        10 * (y / 10 % 10) + y % 10 = y := by omega
    have em : 10 * (m / 10 % 10) + m % 10 = m := by omega
    have ed : 10 * (d / 10 % 10) + d % 10 = d := by omega
    rw [ey, em, ed]
    exact ⟨⟨⟨⟨hy1, hm1⟩, hm2⟩, hd1⟩, hd2⟩

/-- C4: `_is_valid_date` returns true on the empty string; a non-empty
string is accepted exactly when it is an ISO-8601 calendar date of the form
`YYYY-MM-DD`; in particular `"2024-02-30"` is rejected (no such calendar
day) and `"2024-02-10"` is accepted. -/
theorem claim_C4_is_valid_date :
    is_valid_date [] = true ∧
    (∀ s : Chars, s ≠ [] → (is_valid_date s = true ↔ IsIsoCalendarDate s)) ∧
    is_valid_date (chars "2024-02-30") = false ∧
    is_valid_date (chars "2024-02-10") = true := by
  refine ⟨rfl, ?_, by decide, by decide⟩
  intro s hs
  unfold is_valid_date
  rw [Bool.or_eq_true]
  constructor
  · rintro (h | h)
    · exact absurd (by simpa using h) hs
    · exact (fromisoformatOk_iff s).mp h
  · intro h
    exact Or.inr ((fromisoformatOk_iff s).mpr h)

/-- Witness for C4 at the concrete non-empty input `"2024-02-10"`. -/
theorem claim_C4_is_valid_date_witness :
    is_valid_date (chars "2024-02-10") = true ↔
      IsIsoCalendarDate (chars "2024-02-10") :=
  claim_C4_is_valid_date.2.1 (chars "2024-02-10") (by decide)

/-! ## Supporting lemmas: column validation -/

theorem selectCols_fst (wl : List Chars) (cols : List Chars) :
    (selectCols wl cols).1 = cols.filter (fun c => decide (c ∈ wl)) := by
  induction cols with
  | nil => rfl
  | cons c rest ih =>
    by_cases h : c ∈ wl <;> simp [selectCols, h, ih, List.filter_cons]

theorem selectCols_snd (wl : List Chars) (cols : List Chars) :
    (selectCols wl cols).2 =
      (cols.filter (fun c => decide (c ∉ wl))).map Warning.badColumn := by
  induction cols with
  | nil => rfl
  | cons c rest ih =>
    by_cases h : c ∈ wl <;> simp [selectCols, h, ih, List.filter_cons]

/-- C5: `_validate_cols` keeps exactly the candidates found in the endpoint's
whitelist, in input order (the kept list is a sublist of the input), warns
about each removed name, and answers an unrecognized endpoint identifier
with a warning and the empty column filter; it always returns (no
exception). -/
theorem claim_C5_validate_cols (endpoint : Chars) (columns : List Chars) :
    (endpoint = chars "eod" →
      validate_cols endpoint columns =
        (columns.filter (fun c => decide (c ∈ tii_eod_cols)),
         (columns.filter (fun c => decide (c ∉ tii_eod_cols))).map
           Warning.badColumn)) ∧
    (endpoint = chars "iex_last" →
      validate_cols endpoint columns =
        (columns.filter (fun c => decide (c ∈ tii_iex_last_cols)),
         (columns.filter (fun c => decide (c ∉ tii_iex_last_cols))).map
           Warning.badColumn)) ∧
    (endpoint = chars "iex_hist" →
      validate_cols endpoint columns =
        (columns.filter (fun c => decide (c ∈ tii_iex_hist_cols)),
         (columns.filter (fun c => decide (c ∉ tii_iex_hist_cols))).map
           Warning.badColumn)) ∧
    (endpoint ≠ chars "eod" → endpoint ≠ chars "iex_last" →
      endpoint ≠ chars "iex_hist" →
      validate_cols endpoint columns = ([], [Warning.badEndpoint])) ∧
    (validate_cols endpoint columns).1.Sublist columns := by
  refine ⟨?_, ?_, ?_, ?_, ?_⟩
  · intro h
    rw [h]
    show selectCols tii_eod_cols columns = _
    exact Prod.ext (selectCols_fst _ _) (selectCols_snd _ _)
  · intro h
    rw [h]
    show selectCols tii_iex_last_cols columns = _
    exact Prod.ext (selectCols_fst _ _) (selectCols_snd _ _)
  · intro h
    rw [h]
    show selectCols tii_iex_hist_cols columns = _
    exact Prod.ext (selectCols_fst _ _) (selectCols_snd _ _)
  · intro h1 h2 h3
    unfold validate_cols
    rw [if_neg h1, if_neg h2, if_neg h3]
  · unfold validate_cols
    split
    · rw [selectCols_fst]
      exact List.filter_sublist _
    split
    · rw [selectCols_fst]
      exact List.filter_sublist _
    split
    · rw [selectCols_fst]
      exact List.filter_sublist _
    · exact List.nil_sublist _

/-- Witness for C5 at the end-of-day endpoint with one valid and one invalid
name: the invalid one is filtered out and warned about. -/
theorem claim_C5_validate_cols_witness :
    validate_cols (chars "eod") [chars "close", chars "bogus"] =
      ([chars "close"], [Warning.badColumn (chars "bogus")]) :=
  ((claim_C5_validate_cols (chars "eod")
    [chars "close", chars "bogus"]).1 rfl).trans (by decide)

/-! ## Supporting lemmas: frequency classification -/

theorem mem_takeWhile_prop (p : Char → Bool) (l : Chars) :
    ∀ c ∈ l.takeWhile p, p c = true := by
  induction l with
  | nil => intro c hc; simp at hc
  | cons a t ih =>
    intro c hc
    by_cases hp : p a = true
    · rw [List.takeWhile_cons_of_pos hp] at hc
      rcases List.mem_cons.mp hc with rfl | hc
      · exact hp
      · exact ih c hc
    · rw [List.takeWhile_cons_of_neg hp] at hc
      simp at hc

theorem takeWhile_all_append (p : Char → Bool) (l₁ l₂ : Chars)
    (h : ∀ c ∈ l₁, p c = true) :
    (l₁ ++ l₂).takeWhile p = l₁ ++ l₂.takeWhile p := by
  induction l₁ with
  | nil => simp
  | cons a t ih =>
    rw [List.cons_append, List.takeWhile_cons_of_pos (h a (List.mem_cons_self a t)),
      ih fun c hc => h c (List.mem_cons_of_mem a hc), List.cons_append]

theorem dropWhile_all_append (p : Char → Bool) (l₁ l₂ : Chars)
    (h : ∀ c ∈ l₁, p c = true) :
    (l₁ ++ l₂).dropWhile p = l₂.dropWhile p := by
  induction l₁ with
  | nil => simp
  | cons a t ih =>
    rw [List.cons_append, List.dropWhile_cons_of_pos (h a (List.mem_cons_self a t)),
      ih fun c hc => h c (List.mem_cons_of_mem a hc)]

theorem matchesResamplePattern_iff (s : Chars) :
    matchesResamplePattern s = true ↔ PatternLang s := by
  constructor
  · intro h
    unfold matchesResamplePattern at h
    simp only [Bool.and_eq_true, Bool.or_eq_true, beq_iff_eq,
      decide_eq_true_eq] at h
    exact ⟨s.takeWhile isDigitChar, s.dropWhile isDigitChar, h.1,
      mem_takeWhile_prop isDigitChar s,
      h.2.imp (fun e => e) (fun e => e),
      (List.takeWhile_append_dropWhile (p := isDigitChar) (l := s)).symm⟩
  · rintro ⟨ds, suf, hne, hdig, hsuf, rfl⟩
    unfold matchesResamplePattern
    simp only [Bool.and_eq_true, Bool.or_eq_true, beq_iff_eq,
      decide_eq_true_eq]
    have htw : (ds ++ suf).takeWhile isDigitChar = ds ++ suf.takeWhile isDigitChar :=
      takeWhile_all_append isDigitChar ds suf hdig
    have hdw : (ds ++ suf).dropWhile isDigitChar = suf.dropWhile isDigitChar :=
      dropWhile_all_append isDigitChar ds suf hdig
    rcases hsuf with rfl | rfl
    · refine ⟨?_, Or.inl ?_⟩
      · rw [htw]
        simp [hne]
      · rw [hdw]
        rfl
    · refine ⟨?_, Or.inr ?_⟩
      · rw [htw]
        simp [hne]
      · rw [hdw]
        rfl

/-- The two valid frequency classes are mutually exclusive: no fixed
end-of-day frequency word matches the intraday regex. -/
theorem freq_classes_disjoint (f : Chars) (hm : matchesResamplePattern f = true)
    (he : f ∈ tii_resample_freqs) : False := by
  have he' : f = chars "daily" ∨ f = chars "weekly" ∨ f = chars "monthly" ∨
      f = chars "annually" := by
    simpa [tii_resample_freqs] using he
  rcases he' with rfl | rfl | rfl | rfl <;> exact absurd hm (by decide)

/-- C3: every frequency token falls in exactly one class.  A token matching
the anchored digits-`min`/`hour` regex is classified intraday and routed to
the intraday base URL and intraday-historical whitelist identifier; an exact
member of the fixed set is classified end-of-day and routed to the
end-of-day base URL and whitelist identifier; anything else is invalid and
makes `get_stock_hist` raise the error enumerating the valid alternatives
before issuing any request.  `"daily"` routes to end-of-day, `"5min"` and
`"4hour"` to intraday, and `"5 min"` and `"weekly2"` are invalid. -/
theorem claim_C3_frequency_classification (f : Chars) :
    (matchesResamplePattern f = true ↔ PatternLang f) ∧
    ¬(matchesResamplePattern f = true ∧ f ∈ tii_resample_freqs) ∧
    (matchesResamplePattern f = true →
      classifyFrequency f = FreqClass.intraday ∧
      endpointFor (classifyFrequency f) = some tii_iex ∧
      whitelistIdFor (classifyFrequency f) = some (chars "iex_hist")) ∧
    (f ∈ tii_resample_freqs →
      classifyFrequency f = FreqClass.eodFixed ∧
      endpointFor (classifyFrequency f) = some tii_eod ∧
      whitelistIdFor (classifyFrequency f) = some (chars "eod")) ∧
    (matchesResamplePattern f = false → f ∉ tii_resample_freqs →
      classifyFrequency f = FreqClass.invalid ∧
      ∀ (DF : Type) (fetch : Chars → Chars) (parse : Chars → Option DF)
        (setIndex : DF → Option DF) (jsonOf : Chars → Option Chars)
        (ncols : DF → Nat)
        (tickers : List Chars) (start send : Chars) (columns : List Chars),
        get_stock_hist fetch parse setIndex jsonOf ncols tickers f start send
            columns =
          HistCall.mk (Except.error (HistRaise.tiingoError
            (TiingoError.invalidFrequency f tii_resample_freqs))) [] []) ∧
    classifyFrequency (chars "daily") = FreqClass.eodFixed ∧
    classifyFrequency (chars "5min") = FreqClass.intraday ∧
    classifyFrequency (chars "4hour") = FreqClass.intraday ∧
    classifyFrequency (chars "5 min") = FreqClass.invalid ∧
    classifyFrequency (chars "weekly2") = FreqClass.invalid := by
  refine ⟨matchesResamplePattern_iff f, fun h => freq_classes_disjoint f h.1 h.2,
    ?_, ?_, ?_, by decide, by decide, by decide, by decide, by decide⟩
  · intro hm
    have hc : classifyFrequency f = FreqClass.intraday := by
      unfold classifyFrequency
      rw [if_pos hm]
    exact ⟨hc, by rw [hc]; rfl, by rw [hc]; rfl⟩
  · intro he
    have hm : ¬ matchesResamplePattern f = true :=
      fun hm => freq_classes_disjoint f hm he
    have hc : classifyFrequency f = FreqClass.eodFixed := by
      unfold classifyFrequency
      rw [if_neg hm, if_pos he]
    exact ⟨hc, by rw [hc]; rfl, by rw [hc]; rfl⟩
  · intro hm he
    have hc : classifyFrequency f = FreqClass.invalid := by
      unfold classifyFrequency
      rw [if_neg (by simp [hm]), if_neg he]
    refine ⟨hc,
      fun DF fetch parse setIndex jsonOf ncols tickers start send columns => ?_⟩
    unfold get_stock_hist
    rw [hc, if_pos rfl]

/-- Witness for C3 at the invalid frequency `"xyz"`. -/
theorem claim_C3_frequency_classification_witness :
    classifyFrequency (chars "xyz") = FreqClass.invalid ∧
    get_stock_hist (fun _ => []) (fun _ => (none : Option Unit))
        (fun d => some d) (fun b => some b) (fun _ => 0) [chars "AAPL"]
        (chars "xyz") [] [] [] =
      HistCall.mk (Except.error (HistRaise.tiingoError
        (TiingoError.invalidFrequency (chars "xyz") tii_resample_freqs)))
        [] [] := by
  have h := (claim_C3_frequency_classification (chars "xyz")).2.2.2.2.1
    (by decide) (by decide)
  exact ⟨h.1, h.2 Unit (fun _ => []) (fun _ => none) (fun d => some d)
    (fun b => some b) (fun _ => 0) [chars "AAPL"] [] [] []⟩

/-! ## Supporting lemmas: the request loop of get_stock_hist -/

theorem fetchLoop_requests_take {DF : Type} (fetch : Chars → Chars)
    (parse : Chars → Option DF) (setIndex : DF → Option DF)
    (jsonOf : Chars → Option Chars) (pre : Chars) :
    ∀ ts : List Chars, ∃ n, n ≤ ts.length ∧
      (fetchLoop fetch parse setIndex jsonOf pre ts).requests =
        (ts.take n).map (fun t => replaceTicker t pre) := by
  intro ts
  induction ts with
  | nil => exact ⟨0, Nat.le_refl 0, rfl⟩
  | cons t rest ih =>
    cases hp : parse (fetch (replaceTicker t pre)) with
    | some px =>
      cases hsi : setIndex px with
      | some px2 =>
        obtain ⟨n, hn, hr⟩ := ih
        refine ⟨n + 1, by rw [List.length_cons]; omega, ?_⟩
        simp only [fetchLoop, hp, hsi, List.take_succ_cons, List.map_cons]
        rw [hr]
      | none =>
        refine ⟨1, by rw [List.length_cons]; omega, ?_⟩
        simp [fetchLoop, hp, hsi]
    | none =>
      cases hj : jsonOf (fetch (replaceTicker t pre)) with
      | some payload =>
        obtain ⟨n, hn, hr⟩ := ih
        refine ⟨n + 1, by rw [List.length_cons]; omega, ?_⟩
        simp only [fetchLoop, hp, hj, List.take_succ_cons, List.map_cons]
        rw [hr]
      | none =>
        refine ⟨1, by rw [List.length_cons]; omega, ?_⟩
        simp [fetchLoop, hp, hj]

theorem fetchLoop_ok_requests {DF : Type} (fetch : Chars → Chars)
    (parse : Chars → Option DF) (setIndex : DF → Option DF)
    (jsonOf : Chars → Option Chars) (pre : Chars) :
    ∀ (ts : List Chars) (svs : List (Chars × DF)),
      (fetchLoop fetch parse setIndex jsonOf pre ts).outcome = Except.ok svs →
      (fetchLoop fetch parse setIndex jsonOf pre ts).requests =
        ts.map (fun t => replaceTicker t pre) := by
  intro ts
  induction ts with
  | nil => intro svs _; rfl
  | cons t rest ih =>
    intro svs h
    cases hp : parse (fetch (replaceTicker t pre)) with
    | some px =>
      cases hsi : setIndex px with
      | some px2 =>
        simp only [fetchLoop, hp, hsi] at h ⊢
        cases hout : (fetchLoop fetch parse setIndex jsonOf pre rest).outcome with
        | error e =>
          rw [hout] at h
          exact Except.noConfusion h
        | ok v =>
          rw [List.map_cons, ih v hout]
      | none => simp [fetchLoop, hp, hsi] at h
    | none =>
      cases hj : jsonOf (fetch (replaceTicker t pre)) with
      | some payload =>
        simp only [fetchLoop, hp, hj] at h ⊢
        rw [List.map_cons, ih svs h]
      | none => simp [fetchLoop, hp, hj] at h

theorem fetchLoop_ok_sublist {DF : Type} (fetch : Chars → Chars)
    (parse : Chars → Option DF) (setIndex : DF → Option DF)
    (jsonOf : Chars → Option Chars) (pre : Chars) :
    ∀ (ts : List Chars) (svs : List (Chars × DF)),
      (fetchLoop fetch parse setIndex jsonOf pre ts).outcome = Except.ok svs →
      (svs.map Prod.fst).Sublist ts := by
  intro ts
  induction ts with
  | nil =>
    intro svs h
    have hsv : svs = [] := by
      have hh : Except.ok ([] : List (Chars × DF)) = Except.ok svs := h
      exact (Except.ok.injEq _ _ ▸ hh).symm
    rw [hsv]
    exact List.nil_sublist []
  | cons t rest ih =>
    intro svs h
    cases hp : parse (fetch (replaceTicker t pre)) with
    | some px =>
      cases hsi : setIndex px with
      | some px2 =>
        simp only [fetchLoop, hp, hsi] at h
        cases hout : (fetchLoop fetch parse setIndex jsonOf pre rest).outcome with
        | error e =>
          rw [hout] at h
          exact Except.noConfusion h
        | ok v =>
          rw [hout] at h
          have hsv : svs = (t, px2) :: v := by
            have hh : Except.ok ((t, px2) :: v) = Except.ok svs := h
            exact (Except.ok.injEq _ _ ▸ hh).symm
          rw [hsv, List.map_cons]
          exact List.Sublist.cons₂ t (ih v hout)
      | none => simp [fetchLoop, hp, hsi] at h
    | none =>
      cases hj : jsonOf (fetch (replaceTicker t pre)) with
      | some payload =>
        simp only [fetchLoop, hp, hj] at h
        exact List.Sublist.cons t (ih svs h)
      | none => simp [fetchLoop, hp, hj] at h

/-- `get_stock_hist` on a valid frequency and valid dates: the result, the
requests and the warnings are those of the request loop followed by the
fallible composition, with the column warnings printed first. -/
theorem get_stock_hist_eq_of_valid {DF : Type} (fetch : Chars → Chars)
    (parse : Chars → Option DF) (setIndex : DF → Option DF)
    (jsonOf : Chars → Option Chars) (ncols : DF → Nat) (tickers : List Chars)
    (f start send : Chars) (columns : List Chars) (fc : FreqClass)
    (hfc : classifyFrequency f = fc) (hne : fc ≠ FreqClass.invalid)
    (hs : is_valid_date start = true) (he : is_valid_date send = true) :
    get_stock_hist fetch parse setIndex jsonOf ncols tickers f start send
        columns =
      HistCall.mk
        (match (fetchLoop fetch parse setIndex jsonOf
            (build_pre_query ((endpointFor fc).getD [])
              (validate_cols ((whitelistIdFor fc).getD []) columns).1
              start send f) tickers).outcome with
          | Except.error e => Except.error (HistRaise.uncaught e)
          | Except.ok svs =>
            match composeFrames ncols columns svs with
            | Except.error e => Except.error (HistRaise.uncaught e)
            | Except.ok tb => Except.ok tb)
        (fetchLoop fetch parse setIndex jsonOf
          (build_pre_query ((endpointFor fc).getD [])
            (validate_cols ((whitelistIdFor fc).getD []) columns).1
            start send f) tickers).requests
        ((validate_cols ((whitelistIdFor fc).getD []) columns).2 ++
          (fetchLoop fetch parse setIndex jsonOf
            (build_pre_query ((endpointFor fc).getD [])
              (validate_cols ((whitelistIdFor fc).getD []) columns).1
              start send f) tickers).warnings) := by
  cases fc with
  | invalid => exact absurd rfl hne
  | intraday =>
    unfold get_stock_hist
    rw [hfc, if_neg (show ¬(FreqClass.intraday = FreqClass.invalid) by decide),
      if_neg (by simp [hs, he])]
  | eodFixed =>
    unfold get_stock_hist
    rw [hfc, if_neg (show ¬(FreqClass.eodFixed = FreqClass.invalid) by decide),
      if_neg (by simp [hs, he])]

/-- C6: an invalid frequency token, or a malformed start or end date,
makes `get_stock_hist` return the `TiingoError` (the invalid-frequency or
invalid-date message) with zero HTTP requests issued and no dataframe
produced. -/
theorem claim_C6_abort_before_network {DF : Type} (fetch : Chars → Chars)
    (parse : Chars → Option DF) (setIndex : DF → Option DF)
    (jsonOf : Chars → Option Chars) (ncols : DF → Nat) (tickers : List Chars)
    (f start send : Chars) (columns : List Chars)
    (h : classifyFrequency f = FreqClass.invalid ∨
      is_valid_date start = false ∨ is_valid_date send = false) :
    ((get_stock_hist fetch parse setIndex jsonOf ncols tickers f start send
          columns).result =
        Except.error (HistRaise.tiingoError
          (TiingoError.invalidFrequency f tii_resample_freqs)) ∨
      (get_stock_hist fetch parse setIndex jsonOf ncols tickers f start send
          columns).result =
        Except.error (HistRaise.tiingoError TiingoError.invalidDate)) ∧
    (get_stock_hist fetch parse setIndex jsonOf ncols tickers f start send
      columns).requests = [] := by
  cases hfc : classifyFrequency f with
  | invalid =>
    unfold get_stock_hist
    rw [hfc, if_pos rfl]
    exact ⟨Or.inl rfl, rfl⟩
  | intraday =>
    have hd : is_valid_date start = false ∨ is_valid_date send = false := by
      rcases h with hc | hd | hd
      · rw [hfc] at hc
        exact absurd hc (by decide)
      · exact Or.inl hd
      · exact Or.inr hd
    have hif : ¬ (is_valid_date start = true) ∨ ¬ (is_valid_date send = true) := by
      rcases hd with hd | hd <;> simp [hd]
    unfold get_stock_hist
    rw [hfc, if_neg (show ¬(FreqClass.intraday = FreqClass.invalid) by decide),
      if_pos hif]
    exact ⟨Or.inr rfl, rfl⟩
  | eodFixed =>
    have hd : is_valid_date start = false ∨ is_valid_date send = false := by
      rcases h with hc | hd | hd
      · rw [hfc] at hc
        exact absurd hc (by decide)
      · exact Or.inl hd
      · exact Or.inr hd
    have hif : ¬ (is_valid_date start = true) ∨ ¬ (is_valid_date send = true) := by
      rcases hd with hd | hd <;> simp [hd]
    unfold get_stock_hist
    rw [hfc, if_neg (show ¬(FreqClass.eodFixed = FreqClass.invalid) by decide),
      if_pos hif]
    exact ⟨Or.inr rfl, rfl⟩

/-- Witness for C6: a malformed start date aborts with zero requests. -/
theorem claim_C6_abort_before_network_witness :
    ((get_stock_hist (fun _ => []) (fun _ => (none : Option Unit))
        (fun d => some d) (fun b => some b) (fun _ => 0) [chars "AAPL"]
        (chars "daily") (chars "2024-13-01") [] []).result =
        Except.error (HistRaise.tiingoError
          (TiingoError.invalidFrequency (chars "daily")
            tii_resample_freqs)) ∨
      (get_stock_hist (fun _ => []) (fun _ => (none : Option Unit))
        (fun d => some d) (fun b => some b) (fun _ => 0) [chars "AAPL"]
        (chars "daily") (chars "2024-13-01") [] []).result =
        Except.error (HistRaise.tiingoError TiingoError.invalidDate)) ∧
    (get_stock_hist (fun _ => []) (fun _ => (none : Option Unit))
      (fun d => some d) (fun b => some b) (fun _ => 0) [chars "AAPL"]
      (chars "daily") (chars "2024-13-01") [] []).requests = [] :=
  claim_C6_abort_before_network (fun _ => []) (fun _ => none) (fun d => some d)
    (fun b => some b) (fun _ => 0) [chars "AAPL"]
    (chars "daily") (chars "2024-13-01") [] [] (Or.inr (Or.inl (by decide)))

/-! ## Supporting lemmas: result composition -/

theorem composeFrames_many_one {DF : Type} (ncols : DF → Nat)
    (columns : List Chars) (svs : List (Chars × DF)) (h2 : 2 ≤ svs.length)
    (hc : columns.length = 1)
    (hsum : (svs.map (fun s => ncols s.2)).sum = svs.length) :
    composeFrames ncols columns svs =
      Except.ok (Combined.sideBySide svs) := by
  match svs, hsum with
  | [], _ => simp at h2
  | [p], _ => simp at h2
  | a :: b :: rest, hsum =>
    show (if columns.length = 1 then
      if ((a :: b :: rest).map (fun s => ncols s.2)).sum =
          (a :: b :: rest).length then
        Except.ok (Combined.sideBySide (a :: b :: rest))
      else Except.error PyExc.relabelValueError
      else Except.ok (Combined.stacked (a :: b :: rest))) = _
    rw [if_pos hc, if_pos hsum]

theorem composeFrames_relabel_fail {DF : Type} (ncols : DF → Nat)
    (columns : List Chars) (svs : List (Chars × DF)) (h2 : 2 ≤ svs.length)
    (hc : columns.length = 1)
    (hsum : (svs.map (fun s => ncols s.2)).sum ≠ svs.length) :
    composeFrames ncols columns svs =
      Except.error PyExc.relabelValueError := by
  match svs, hsum with
  | [], _ => simp at h2
  | [p], _ => simp at h2
  | a :: b :: rest, hsum =>
    show (if columns.length = 1 then
      if ((a :: b :: rest).map (fun s => ncols s.2)).sum =
          (a :: b :: rest).length then
        Except.ok (Combined.sideBySide (a :: b :: rest))
      else Except.error PyExc.relabelValueError
      else Except.ok (Combined.stacked (a :: b :: rest))) = _
    rw [if_pos hc, if_neg hsum]

theorem composeFrames_many_several {DF : Type} (ncols : DF → Nat)
    (columns : List Chars) (svs : List (Chars × DF)) (h2 : 2 ≤ svs.length)
    (hc : columns.length ≠ 1) :
    composeFrames ncols columns svs = Except.ok (Combined.stacked svs) := by
  match svs with
  | [] => simp at h2
  | [p] => simp at h2
  | a :: b :: rest =>
    show (if columns.length = 1 then
      if ((a :: b :: rest).map (fun s => ncols s.2)).sum =
          (a :: b :: rest).length then
        Except.ok (Combined.sideBySide (a :: b :: rest))
      else Except.error PyExc.relabelValueError
      else Except.ok (Combined.stacked (a :: b :: rest))) = _
    rw [if_neg hc]

/-- C1 counterexample: the claim as stated promises an assembled table for
every call, but a response body such as `[]` parses under `pd.read_json`
and then crashes in `px.set_index("date")`, which sits outside the `try`:
the call raises an uncaught `KeyError` (with no warning) instead of
treating the ticker as a non-survivor and returning the empty table. -/
theorem claim_C1_cardinality_composition_cex :
    (get_stock_hist (fun _ => []) (fun _ => some (0 : Nat)) (fun _ => none)
      (fun b => some b) (fun _ => 1) [chars "AAPL"] (chars "daily") [] []
      []).result =
      Except.error (HistRaise.uncaught
        (PyExc.setIndexKeyError (chars "AAPL"))) ∧
    (get_stock_hist (fun _ => []) (fun _ => some (0 : Nat)) (fun _ => none)
      (fun b => some b) (fun _ => 1) [chars "AAPL"] (chars "daily") [] []
      []).warnings = [] :=
  ⟨rfl, rfl⟩

/-- C1 (amended): for every valid `get_stock_hist` call whose request loop
completes without an uncaught exception, the returned dataframe is decided
purely by the cardinality of the survivors: no survivor gives the empty
frame; one survivor gives that frame unmodified; several survivors with
exactly one requested column give the side-by-side concatenation labelled
by the surviving ticker symbols — provided the surviving frames carry one
column per survivor in total, as single-column frames do; with the column
counts mismatched the relabelling `df.columns = valid_tickers` instead
raises an uncaught `ValueError`; several survivors with zero or several
requested columns give the row-stacked frame keyed by `(ticker, date)`,
the keys being the surviving tickers in original input order (a sublist of
the input). -/
theorem claim_C1_cardinality_composition {DF : Type} (fetch : Chars → Chars)
    (parse : Chars → Option DF) (setIndex : DF → Option DF)
    (jsonOf : Chars → Option Chars) (ncols : DF → Nat) (tickers : List Chars)
    (f start send : Chars) (columns : List Chars) (fc : FreqClass)
    (svs : List (Chars × DF))
    (hfc : classifyFrequency f = fc) (hne : fc ≠ FreqClass.invalid)
    (hs : is_valid_date start = true) (he : is_valid_date send = true)
    (hloop : (fetchLoop fetch parse setIndex jsonOf
      (histPreQuery f start send columns fc) tickers).outcome =
      Except.ok svs) :
    (svs = [] →
      (get_stock_hist fetch parse setIndex jsonOf ncols tickers f start send
        columns).result = Except.ok Combined.empty) ∧
    (∀ p, svs = [p] →
      (get_stock_hist fetch parse setIndex jsonOf ncols tickers f start send
        columns).result = Except.ok (Combined.single p.2)) ∧
    (2 ≤ svs.length → columns.length = 1 →
      (svs.map (fun s => ncols s.2)).sum = svs.length →
      (get_stock_hist fetch parse setIndex jsonOf ncols tickers f start send
        columns).result = Except.ok (Combined.sideBySide svs)) ∧
    (2 ≤ svs.length → columns.length = 1 →
      (svs.map (fun s => ncols s.2)).sum ≠ svs.length →
      (get_stock_hist fetch parse setIndex jsonOf ncols tickers f start send
        columns).result =
        Except.error (HistRaise.uncaught PyExc.relabelValueError)) ∧
    (2 ≤ svs.length → columns.length ≠ 1 →
      (get_stock_hist fetch parse setIndex jsonOf ncols tickers f start send
        columns).result = Except.ok (Combined.stacked svs)) ∧
    (svs.map Prod.fst).Sublist tickers := by
  have hloop2 : (fetchLoop fetch parse setIndex jsonOf
      (build_pre_query ((endpointFor fc).getD [])
        (validate_cols ((whitelistIdFor fc).getD []) columns).1
        start send f) tickers).outcome = Except.ok svs := hloop
  have hres : (get_stock_hist fetch parse setIndex jsonOf ncols tickers f
      start send columns).result =
      match composeFrames ncols columns svs with
      | Except.error e => Except.error (HistRaise.uncaught e)
      | Except.ok tb => Except.ok tb := by
    rw [get_stock_hist_eq_of_valid fetch parse setIndex jsonOf ncols tickers f
      start send columns fc hfc hne hs he]
    show (match (fetchLoop fetch parse setIndex jsonOf
        (build_pre_query ((endpointFor fc).getD [])
          (validate_cols ((whitelistIdFor fc).getD []) columns).1
          start send f) tickers).outcome with
      | Except.error e => Except.error (HistRaise.uncaught e)
      | Except.ok svs2 =>
        match composeFrames ncols columns svs2 with
        | Except.error e => Except.error (HistRaise.uncaught e)
        | Except.ok tb => Except.ok tb) = _
    rw [hloop2]
  refine ⟨?_, ?_, ?_, ?_, ?_,
    fetchLoop_ok_sublist fetch parse setIndex jsonOf _ tickers svs hloop⟩
  · intro h
    rw [hres, h]
    rfl
  · intro p h
    rw [hres, h]
    rfl
  · intro h2 hc hsum
    rw [hres, composeFrames_many_one ncols columns svs h2 hc hsum]
  · intro h2 hc hsum
    rw [hres, composeFrames_relabel_fail ncols columns svs h2 hc hsum]
  · intro h2 hc
    rw [hres, composeFrames_many_several ncols columns svs h2 hc]

/-- Witness for the amended C1: two surviving single-column tickers and
exactly one requested column produce the side-by-side frame labelled
`AAPL`, `MSFT`. -/
theorem claim_C1_cardinality_composition_witness :
    (get_stock_hist (fun _ => []) (fun _ => some (1 : Nat)) (fun d => some d)
      (fun b => some b) (fun n => n) [chars "AAPL", chars "MSFT"]
      (chars "daily") [] [] [chars "close"]).result =
      Except.ok (Combined.sideBySide
        [(chars "AAPL", 1), (chars "MSFT", 1)]) := by
  have h := claim_C1_cardinality_composition (fun _ => [])
    (fun _ => some (1 : Nat)) (fun d => some d) (fun b => some b) (fun n => n)
    [chars "AAPL", chars "MSFT"] (chars "daily") [] [] [chars "close"]
    FreqClass.eodFixed [(chars "AAPL", 1), (chars "MSFT", 1)]
    (by decide) (by decide) (by decide) (by decide) rfl
  exact h.2.2.1 (by decide) (by decide) (by decide)

/-- C2: the claim — a single bad ticker never aborts the batch and always
yields a warning naming it — is contradicted by the code on two concrete
inputs, evaluated here.  (a) When the `MSFT` response body is not JSON,
`pd.read_json` raises and then `r.json()` raises *inside* the `except:`
handler: the whole call aborts with an uncaught exception, printing no
warning, even though both requests were already issued.  (b) When the
`MSFT` body is `[]`, `pd.read_json` succeeds and `px.set_index("date")` —
outside the `try` — raises an uncaught `KeyError`, again aborting the
batch.  (c) By contrast, when the failing body is JSON-decodable the
intended path runs: `MSFT` is dropped with the warning and `AAPL` still
yields its table. -/
theorem claim_C2_bad_ticker_aborts_batch :
    (get_stock_hist (fun u => u)
      (fun body => if body = chars
        "https://api.tiingo.com/tiingo/daily/MSFT/prices?format=json&resampleFreq=daily"
        then none else some (0 : Nat))
      (fun d => some d)
      (fun body => if body = chars
        "https://api.tiingo.com/tiingo/daily/MSFT/prices?format=json&resampleFreq=daily"
        then none else some body)
      (fun _ => 1)
      [chars "AAPL", chars "MSFT"] (chars "daily") [] [] []).result =
      Except.error (HistRaise.uncaught
        (PyExc.warnPayloadError (chars "MSFT"))) ∧
    (get_stock_hist (fun u => u)
      (fun body => if body = chars
        "https://api.tiingo.com/tiingo/daily/MSFT/prices?format=json&resampleFreq=daily"
        then none else some (0 : Nat))
      (fun d => some d)
      (fun body => if body = chars
        "https://api.tiingo.com/tiingo/daily/MSFT/prices?format=json&resampleFreq=daily"
        then none else some body)
      (fun _ => 1)
      [chars "AAPL", chars "MSFT"] (chars "daily") [] [] []).warnings = [] ∧
    (get_stock_hist (fun u => u)
      (fun body => if body = chars
        "https://api.tiingo.com/tiingo/daily/MSFT/prices?format=json&resampleFreq=daily"
        then none else some (0 : Nat))
      (fun d => some d)
      (fun body => if body = chars
        "https://api.tiingo.com/tiingo/daily/MSFT/prices?format=json&resampleFreq=daily"
        then none else some body)
      (fun _ => 1)
      [chars "AAPL", chars "MSFT"] (chars "daily") [] [] []).requests =
      [chars "https://api.tiingo.com/tiingo/daily/AAPL/prices?format=json&resampleFreq=daily",
       chars "https://api.tiingo.com/tiingo/daily/MSFT/prices?format=json&resampleFreq=daily"] ∧
    (get_stock_hist (fun u => u)
      (fun body => some (if body = chars
        "https://api.tiingo.com/tiingo/daily/MSFT/prices?format=json&resampleFreq=daily"
        then 1 else (0 : Nat)))
      (fun d => if d = 1 then none else some d)
      (fun body => some body)
      (fun _ => 1)
      [chars "AAPL", chars "MSFT"] (chars "daily") [] [] []).result =
      Except.error (HistRaise.uncaught
        (PyExc.setIndexKeyError (chars "MSFT"))) ∧
    (get_stock_hist (fun u => u)
      (fun body => if body = chars
        "https://api.tiingo.com/tiingo/daily/MSFT/prices?format=json&resampleFreq=daily"
        then none else some (0 : Nat))
      (fun d => some d)
      (fun body => some body)
      (fun _ => 1)
      [chars "AAPL", chars "MSFT"] (chars "daily") [] [] []).result =
      Except.ok (Combined.single 0) ∧
    (get_stock_hist (fun u => u)
      (fun body => if body = chars
        "https://api.tiingo.com/tiingo/daily/MSFT/prices?format=json&resampleFreq=daily"
        then none else some (0 : Nat))
      (fun d => some d)
      (fun body => some body)
      (fun _ => 1)
      [chars "AAPL", chars "MSFT"] (chars "daily") [] [] []).warnings =
      [Warning.badTicker (chars "MSFT") (chars
        "https://api.tiingo.com/tiingo/daily/MSFT/prices?format=json&resampleFreq=daily")] :=
  ⟨rfl, rfl, by decide, rfl, rfl, by decide⟩

/-! ## Last-quote retrieval -/

theorem get_stock_last_eq {DF : Type} (fetch : Chars → Chars)
    (parseCsv : Chars → Option DF) (tickers : List Chars)
    (columns : List Chars) :
    get_stock_last fetch parseCsv tickers columns =
      match parseCsv (fetch (lastUrl tickers columns)) with
      | some df => LastCall.mk (Except.ok df) [lastUrl tickers columns]
          (validate_cols (chars "iex_last") columns).2
      | none => LastCall.mk (Except.error ()) [lastUrl tickers columns]
          (validate_cols (chars "iex_last") columns).2 := rfl

/-- C8: `get_stock_last` issues exactly one GET request for the whole
ticker sequence (never one per ticker); its URL is the intraday base
followed by `?tickers=<comma-joined tickers>&format=csv`, with the
`&columns=<comma-joined validated columns>` component appended exactly when
some requested column survived the intraday-last-quote whitelist (only
whitelisted names ever appear); the parsed CSV table is returned
unmodified, and a parse failure propagates to the caller uncaught.  A
single ticker string is first wrapped into a one-element sequence. -/
theorem claim_C8_last_quote_single_request {DF : Type} (fetch : Chars → Chars)
    (parseCsv : Chars → Option DF) (tickers : List Chars)
    (columns : List Chars) :
    (get_stock_last fetch parseCsv tickers columns).requests =
      [lastUrl tickers columns] ∧
    (get_stock_last fetch parseCsv tickers columns).requests.length = 1 ∧
    lastUrl tickers columns =
      tii_iex ++ chars "?tickers=" ++ joinComma tickers ++
        chars "&format=csv" ++
        (if (validate_cols (chars "iex_last") columns).1 ≠ [] then
          chars "&columns=" ++
            joinComma (validate_cols (chars "iex_last") columns).1
        else []) ∧
    (∀ c ∈ (validate_cols (chars "iex_last") columns).1,
      c ∈ tii_iex_last_cols) ∧
    (∀ df, parseCsv (fetch (lastUrl tickers columns)) = some df →
      (get_stock_last fetch parseCsv tickers columns).result =
        Except.ok df) ∧
    (parseCsv (fetch (lastUrl tickers columns)) = none →
      (get_stock_last fetch parseCsv tickers columns).result =
        Except.error ()) ∧
    (∀ t : Chars, get_stock_last_str fetch parseCsv t columns =
      get_stock_last fetch parseCsv [t] columns) := by
  refine ⟨?_, ?_, ?_, ?_, ?_, ?_, fun t => rfl⟩
  · rw [get_stock_last_eq fetch parseCsv tickers columns]
    cases parseCsv (fetch (lastUrl tickers columns)) <;> rfl
  · rw [get_stock_last_eq fetch parseCsv tickers columns]
    cases parseCsv (fetch (lastUrl tickers columns)) <;> rfl
  · by_cases hc : (validate_cols (chars "iex_last") columns).1 = [] <;>
      simp [lastUrl, hc, List.append_assoc]
  · intro c hc
    rw [show validate_cols (chars "iex_last") columns =
      selectCols tii_iex_last_cols columns from rfl, selectCols_fst] at hc
    exact of_decide_eq_true (List.mem_filter.mp hc).2
  · intro df hdf
    rw [get_stock_last_eq fetch parseCsv tickers columns, hdf]
  · intro hdf
    rw [get_stock_last_eq fetch parseCsv tickers columns, hdf]

/-- Witness for C8: two tickers, no columns, parse succeeds and the parsed
table is returned as-is. -/
theorem claim_C8_last_quote_single_request_witness :
    (get_stock_last (fun u => u) (fun _ => some (0 : Nat))
      [chars "AAPL", chars "MSFT"] []).result = Except.ok 0 :=
  (claim_C8_last_quote_single_request (fun u => u)
    (fun _ => some (0 : Nat)) [chars "AAPL", chars "MSFT"] []).2.2.2.2.1 0 rfl

/-! ## Client construction and state -/

/-- C9: construction issues exactly one token-validation request and raises
the authentication error — carrying the provider's message — precisely when
the response message equals `"Auth Token was not correct"`; any other
message yields the ready client holding the authorization headers. -/
theorem claim_C9_token_validation (fetchMessage : Chars → Chars)
    (token : Chars) :
    (clientInit fetchMessage token).requests = [tokenCheckUrl token] ∧
    ((clientInit fetchMessage token).result =
        Except.error (TiingoError.authRejected token
          (fetchMessage (tokenCheckUrl token))) ↔
      fetchMessage (tokenCheckUrl token) =
        chars "Auth Token was not correct") ∧
    (fetchMessage (tokenCheckUrl token) ≠
        chars "Auth Token was not correct" →
      (clientInit fetchMessage token).result =
        Except.ok (Client.mk (mkHeaders token))) := by
  unfold clientInit
  by_cases hm : fetchMessage (tokenCheckUrl token) =
      chars "Auth Token was not correct"
  · rw [if_pos hm]
    exact ⟨rfl, ⟨fun _ => hm, fun _ => rfl⟩, fun hne => absurd hm hne⟩
  · rw [if_neg hm]
    exact ⟨rfl, ⟨fun he => absurd (Except.noConfusion he) id,
      fun hmm => absurd hmm hm⟩, fun _ => rfl⟩

/-- Witness for C9: a response message other than the rejection text yields
the ready client. -/
theorem claim_C9_token_validation_witness :
    (clientInit (fun _ => chars "You did it right") (chars "tok")).result =
      Except.ok (Client.mk (mkHeaders (chars "tok"))) :=
  (claim_C9_token_validation (fun _ => chars "You did it right")
    (chars "tok")).2.2 (by decide)

/-- C10: after construction the client state is just the authorization
headers, and every public operation — metadata, historical and last-quote
retrieval — leaves that state unchanged: each call, and any sequence of
calls, returns the client exactly as received, headers included. -/
theorem claim_C10_client_state_immutable {DF : Type} (fetch : Chars → Chars)
    (parse : Chars → Option DF) (setIndex : DF → Option DF)
    (jsonOf : Chars → Option Chars) (ncols : DF → Nat)
    (parseCsv : Chars → Option DF) (c : Client) :
    (∀ k : Call,
      runCall DF fetch parse setIndex jsonOf ncols parseCsv c k = c) ∧
    (∀ k : Call,
      (runCall DF fetch parse setIndex jsonOf ncols parseCsv c k).headers =
        c.headers) ∧
    (∀ ks : List Call,
      runCalls DF fetch parse setIndex jsonOf ncols parseCsv c ks = c) ∧
    (∀ ks : List Call,
      (runCalls DF fetch parse setIndex jsonOf ncols parseCsv c ks).headers =
        c.headers) := by
  have h1 : ∀ k : Call,
      runCall DF fetch parse setIndex jsonOf ncols parseCsv c k = c := by
    intro k
    cases k <;> rfl
  have h3 : ∀ ks : List Call,
      runCalls DF fetch parse setIndex jsonOf ncols parseCsv c ks = c := by
    intro ks
    induction ks with
    | nil => rfl
    | cons k rest ih =>
      show runCalls DF fetch parse setIndex jsonOf ncols parseCsv
        (runCall DF fetch parse setIndex jsonOf ncols parseCsv c k) rest = c
      rw [h1 k]
      exact ih
  exact ⟨h1, fun k => by rw [h1 k], h3, fun ks => by rw [h3 ks]⟩

/-! ## Supporting lemmas: the placeholder substitution -/

theorem leadsWith_iff (p s : Chars) : leadsWith p s = true ↔ ∃ t, s = p ++ t := by
  induction p generalizing s with
  | nil => simp [leadsWith]
  | cons a as ih =>
    cases s with
    | nil => simp [leadsWith]
    | cons b bs =>
      show (a == b && leadsWith as bs) = true ↔ _
      rw [Bool.and_eq_true, beq_iff_eq, ih bs]
      constructor
      · rintro ⟨rfl, t, rfl⟩
        exact ⟨t, rfl⟩
      · rintro ⟨t, ht⟩
        rw [List.cons_append] at ht
        injection ht with h1 h2
        exact ⟨h1.symm, t, h2⟩

theorem kAfterEAux_false_of_leads (p : Char) (s : Chars)
    (h : leadsWith tickerPat s = true) : kAfterEAux p s = false := by
  obtain ⟨t, rfl⟩ := (leadsWith_iff tickerPat s).mp h
  rfl

theorem kAfterEAux_append (a b : Chars) :
    ∀ p, kAfterEAux p (a ++ b) =
      (kAfterEAux p a && kAfterEAux (lastOr p a) b) := by
  induction a with
  | nil => intro p; rfl
  | cons c cs ih =>
    intro p
    show ((if c = 'k' then p == 'e' else true) && kAfterEAux c (cs ++ b)) = _
    rw [ih c,
      show kAfterEAux p (c :: cs) =
        ((if c = 'k' then p == 'e' else true) && kAfterEAux c cs) from rfl,
      show lastOr p (c :: cs) = lastOr c cs from rfl, Bool.and_assoc]

theorem kAfterEAux_of_no_k (s : Chars) (h : 'k' ∉ s) :
    ∀ p, kAfterEAux p s = true := by
  induction s with
  | nil => intro p; rfl
  | cons c cs ih =>
    intro p
    have hck : ¬ (c = 'k') := by
      intro hc
      rw [hc] at h
      exact h (List.mem_cons_self _ _)
    show ((if c = 'k' then p == 'e' else true) && kAfterEAux c cs) = true
    rw [if_neg hck, Bool.true_and]
    exact ih (fun hm => h (List.mem_cons_of_mem c hm)) c

theorem kAfterEAux_all_append (a b : Chars)
    (ha : ∀ p, kAfterEAux p a = true) (hb : ∀ p, kAfterEAux p b = true) :
    ∀ p, kAfterEAux p (a ++ b) = true := by
  intro p
  rw [kAfterEAux_append, ha p, hb (lastOr p a)]
  rfl

theorem replaceTickerGo_id (rep : Chars) :
    ∀ (fuel : Nat) (s : Chars) (p : Char), s.length ≤ fuel →
      kAfterEAux p s = true → replaceTickerGo rep fuel s = s := by
  intro fuel
  induction fuel with
  | zero =>
    intro s p hl _
    cases s with
    | nil => rfl
    | cons c cs => simp at hl
  | succ n ih =>
    intro s p hl hk
    cases s with
    | nil => rfl
    | cons c cs =>
      have hnp : ¬ (leadsWith tickerPat (c :: cs) = true) := by
        intro hp
        rw [kAfterEAux_false_of_leads p _ hp] at hk
        exact Bool.noConfusion hk
      show (if leadsWith tickerPat (c :: cs) then
        rep ++ replaceTickerGo rep n (cs.drop 5)
        else c :: replaceTickerGo rep n cs) = c :: cs
      rw [if_neg hnp]
      have hk2 : kAfterEAux c cs = true := by
        have hh : ((if c = 'k' then p == 'e' else true) && kAfterEAux c cs)
            = true := hk
        simp only [Bool.and_eq_true] at hh
        exact hh.2
      have hlen : cs.length ≤ n := by
        rw [List.length_cons] at hl
        omega
      rw [ih cs c hlen hk2]

theorem replaceTickerGo_splice (rep : Chars) :
    ∀ (a b : Chars) (fuel : Nat), (a ++ (tickerPat ++ b)).length ≤ fuel →
      (∀ i, i < a.length →
        leadsWith tickerPat ((a ++ (tickerPat ++ b)).drop i) = false) →
      (∀ p, kAfterEAux p b = true) →
      replaceTickerGo rep fuel (a ++ (tickerPat ++ b)) = a ++ (rep ++ b) := by
  intro a
  induction a with
  | nil =>
    intro b fuel hl hfront hb
    rw [List.nil_append] at hl ⊢
    cases fuel with
    | zero =>
      exfalso
      rw [List.length_append] at hl
      have h6 : tickerPat.length = 6 := rfl
      omega
    | succ n =>
      show (if leadsWith tickerPat ('t' :: (chars "icker" ++ b)) then
        rep ++ replaceTickerGo rep n ((chars "icker" ++ b).drop 5)
        else 't' :: replaceTickerGo rep n (chars "icker" ++ b)) = rep ++ b
      rw [if_pos (show leadsWith tickerPat ('t' :: (chars "icker" ++ b)) = true
        from (leadsWith_iff tickerPat (tickerPat ++ b)).mpr ⟨b, rfl⟩)]
      show rep ++ replaceTickerGo rep n b = rep ++ b
      have hlen : b.length ≤ n := by
        rw [List.length_append] at hl
        have h6 : tickerPat.length = 6 := rfl
        omega
      rw [replaceTickerGo_id rep n b 'r' hlen (hb 'r')]
  | cons c a' ih =>
    intro b fuel hl hfront hb
    cases fuel with
    | zero =>
      exfalso
      rw [List.cons_append, List.length_cons] at hl
      omega
    | succ n =>
      have h0 : leadsWith tickerPat (c :: (a' ++ (tickerPat ++ b))) = false := by
        have := hfront 0 (by simp)
        rw [List.drop_zero] at this
        exact this
      show (if leadsWith tickerPat (c :: (a' ++ (tickerPat ++ b))) then
        rep ++ replaceTickerGo rep n ((a' ++ (tickerPat ++ b)).drop 5)
        else c :: replaceTickerGo rep n (a' ++ (tickerPat ++ b))) =
        c :: (a' ++ (rep ++ b))
      rw [if_neg (by rw [h0]; exact Bool.noConfusion)]
      have hfront' : ∀ i, i < a'.length →
          leadsWith tickerPat ((a' ++ (tickerPat ++ b)).drop i) = false := by
        intro i hi
        exact hfront (i + 1) (by rw [List.length_cons]; omega)
      have hlen : (a' ++ (tickerPat ++ b)).length ≤ n := by
        rw [List.cons_append, List.length_cons] at hl
        omega
      rw [ih b n hlen hfront' hb]

theorem replaceTicker_splice (rep a b : Chars)
    (hfront : ∀ i, i < a.length →
      leadsWith tickerPat ((a ++ (tickerPat ++ b)).drop i) = false)
    (hb : ∀ p, kAfterEAux p b = true) :
    replaceTicker rep (a ++ (tickerPat ++ b)) = a ++ (rep ++ b) :=
  replaceTickerGo_splice rep a b _ le_rfl hfront hb

theorem leadsWith_append_of_length (p x y : Chars) (h : p.length ≤ x.length) :
    leadsWith p (x ++ y) = leadsWith p x := by
  induction p generalizing x with
  | nil => cases x <;> rfl
  | cons a as ih =>
    cases x with
    | nil => simp at h
    | cons b bs =>
      show (a == b && leadsWith as (bs ++ y)) = (a == b && leadsWith as bs)
      rw [ih bs (by rw [List.length_cons, List.length_cons] at h; omega)]

theorem front_safe_lift (a b : Chars)
    (hconc : ∀ i, i < a.length →
      leadsWith tickerPat ((a ++ tickerPat).drop i) = false) :
    ∀ i, i < a.length →
      leadsWith tickerPat ((a ++ (tickerPat ++ b)).drop i) = false := by
  intro i hi
  rw [show a ++ (tickerPat ++ b) = (a ++ tickerPat) ++ b from
      (List.append_assoc a tickerPat b).symm,
    List.drop_append_of_le_length (by rw [List.length_append]; omega),
    leadsWith_append_of_length _ _ _ (by
      rw [List.length_drop, List.length_append]
      have h6 : tickerPat.length = 6 := rfl
      omega)]
  exact hconc i hi

theorem front_safe_eod : ∀ i, i < tii_eod.length →
    leadsWith tickerPat ((tii_eod ++ tickerPat).drop i) = false := by decide

theorem front_safe_iex : ∀ i, i < tii_iex.length →
    leadsWith tickerPat ((tii_iex ++ tickerPat).drop i) = false := by decide

/-! ## Supporting lemmas: no stray occurrence of the placeholder word -/

theorem digitChar_ne_k (n : Nat) (h : n ≤ 9) : digitChar n ≠ 'k' := by
  interval_cases n <;> decide

theorem no_k_of_valid_date (s : Chars) (h : is_valid_date s = true) :
    'k' ∉ s := by
  by_cases hs : s = []
  · rw [hs]
    simp
  · have hf : fromisoformatOk s = true := by
      unfold is_valid_date at h
      simp only [Bool.or_eq_true, beq_iff_eq] at h
      rcases h with h1 | h1
      · exact absurd h1 hs
      · exact h1
    obtain ⟨y, m, d, _, _, _, _, _, hd2, rfl⟩ := (fromisoformatOk_iff s).mp hf
    intro hk
    simp only [natDigits4, natDigits2, List.cons_append, List.nil_append,
      List.mem_cons, List.not_mem_nil, or_false] at hk
    rcases hk with h | h | h | h | h | h | h | h | h | h <;>
      first
        | exact absurd h.symm (digitChar_ne_k _ (by omega))
        | exact absurd h (by decide)

theorem joinComma_no_k (l : List Chars) (h : ∀ x ∈ l, 'k' ∉ x) :
    'k' ∉ joinComma l := by
  induction l with
  | nil => simp [joinComma]
  | cons c rest ih =>
    cases rest with
    | nil => exact h c (List.mem_cons_self _ _)
    | cons c2 r2 =>
      intro hk
      rw [show joinComma (c :: c2 :: r2) = c ++ ',' :: joinComma (c2 :: r2)
        from rfl] at hk
      rcases List.mem_append.mp hk with hk | hk
      · exact h c (List.mem_cons_self _ _) hk
      · rcases List.mem_cons.mp hk with hk | hk
        · exact absurd hk (by decide)
        · exact ih (fun x hx => h x (List.mem_cons_of_mem c hx)) hk

theorem no_k_eod_cols : ∀ x ∈ tii_eod_cols, 'k' ∉ x := by decide

theorem no_k_iex_hist_cols : ∀ x ∈ tii_iex_hist_cols, 'k' ∉ x := by decide

theorem kAfterE_freq_eod (f : Chars) (hf : f ∈ tii_resample_freqs) :
    ∀ p, kAfterEAux p f = true := by
  have hf' : f = chars "daily" ∨ f = chars "weekly" ∨ f = chars "monthly" ∨
      f = chars "annually" := by simpa [tii_resample_freqs] using hf
  rcases hf' with rfl | rfl | rfl | rfl <;> intro p <;> rfl

theorem no_k_freq_pattern (f : Chars) (hm : matchesResamplePattern f = true) :
    'k' ∉ f := by
  obtain ⟨ds, suf, _, hdig, hsuf, rfl⟩ := (matchesResamplePattern_iff f).mp hm
  intro hk
  rcases List.mem_append.mp hk with hk | hk
  · exact absurd (hdig 'k' hk) (by decide)
  · rcases hsuf with rfl | rfl <;> revert hk <;> decide

theorem classify_intraday_matches (f : Chars)
    (h : classifyFrequency f = FreqClass.intraday) :
    matchesResamplePattern f = true := by
  by_cases hm : matchesResamplePattern f = true
  · exact hm
  · exfalso
    unfold classifyFrequency at h
    rw [if_neg hm] at h
    by_cases hmem : f ∈ tii_resample_freqs
    · rw [if_pos hmem] at h
      exact FreqClass.noConfusion h
    · rw [if_neg hmem] at h
      exact FreqClass.noConfusion h

theorem classify_eod_mem (f : Chars)
    (h : classifyFrequency f = FreqClass.eodFixed) :
    f ∈ tii_resample_freqs := by
  by_cases hmem : f ∈ tii_resample_freqs
  · exact hmem
  · exfalso
    unfold classifyFrequency at h
    by_cases hm : matchesResamplePattern f = true
    · rw [if_pos hm] at h
      exact FreqClass.noConfusion h
    · rw [if_neg hm, if_neg hmem] at h
      exact FreqClass.noConfusion h

theorem histTail_scan (f : Chars) (vcols : List Chars) (start send : Chars)
    (hfreq : ∀ p, kAfterEAux p f = true) (hcols : ∀ x ∈ vcols, 'k' ∉ x)
    (hs : is_valid_date start = true) (he : is_valid_date send = true) :
    ∀ p, kAfterEAux p (histTail f vcols start send) = true := by
  have hC : ∀ p, kAfterEAux p
      (if vcols ≠ [] then chars "&columns=" ++ joinComma vcols else []) = true := by
    by_cases hv : vcols = []
    · simp only [hv, ne_eq, not_true_eq_false, if_false]
      intro p
      rfl
    · rw [if_pos hv]
      exact kAfterEAux_all_append _ _
        (kAfterEAux_of_no_k _ (by decide))
        (kAfterEAux_of_no_k _ (joinComma_no_k vcols hcols))
  have hS : ∀ p, kAfterEAux p
      (if start ≠ [] then chars "&startDate=" ++ start else []) = true := by
    by_cases hv : start = []
    · simp only [hv, ne_eq, not_true_eq_false, if_false]
      intro p
      rfl
    · rw [if_pos hv]
      exact kAfterEAux_all_append _ _
        (kAfterEAux_of_no_k _ (by decide))
        (kAfterEAux_of_no_k _ (no_k_of_valid_date start hs))
  have hE : ∀ p, kAfterEAux p
      (if send ≠ [] then chars "&endDate=" ++ send else []) = true := by
    by_cases hv : send = []
    · simp only [hv, ne_eq, not_true_eq_false, if_false]
      intro p
      rfl
    · rw [if_pos hv]
      exact kAfterEAux_all_append _ _
        (kAfterEAux_of_no_k _ (by decide))
        (kAfterEAux_of_no_k _ (no_k_of_valid_date send he))
  unfold histTail
  exact kAfterEAux_all_append _ _ (kAfterEAux_of_no_k _ (by decide))
    (kAfterEAux_all_append _ _ (kAfterEAux_of_no_k _ (by decide))
      (kAfterEAux_all_append _ _ hfreq
        (kAfterEAux_all_append _ _ hC
          (kAfterEAux_all_append _ _ hS hE))))

theorem build_pre_query_shape (base : Chars) (vcols : List Chars)
    (start send f : Chars) :
    build_pre_query base vcols start send f =
      base ++ (tickerPat ++ histTail f vcols start send) := by
  unfold build_pre_query histTail
  rw [show chars "ticker/prices?format=json" =
    tickerPat ++ chars "/prices?format=json" from rfl]
  simp [List.append_assoc]

theorem replaceTicker_pre_query (base : Chars) (vcols : List Chars)
    (start send f tk : Chars)
    (hfront : ∀ i, i < base.length →
      leadsWith tickerPat ((base ++ tickerPat).drop i) = false)
    (hfreq : ∀ p, kAfterEAux p f = true)
    (hcols : ∀ x ∈ vcols, 'k' ∉ x)
    (hs : is_valid_date start = true) (he : is_valid_date send = true) :
    replaceTicker tk (build_pre_query base vcols start send f) =
      base ++ tk ++ chars "/prices?format=json" ++ chars "&resampleFreq=" ++
        f ++ (if vcols ≠ [] then chars "&columns=" ++ joinComma vcols else []) ++
        (if start ≠ [] then chars "&startDate=" ++ start else []) ++
        (if send ≠ [] then chars "&endDate=" ++ send else []) := by
  rw [build_pre_query_shape,
    replaceTicker_splice tk base (histTail f vcols start send)
      (front_safe_lift base _ hfront)
      (histTail_scan f vcols start send hfreq hcols hs he)]
  simp [histTail, List.append_assoc]

theorem validate_iex_hist_mem (columns : List Chars) :
    ∀ c ∈ (validate_cols (chars "iex_hist") columns).1, c ∈ tii_iex_hist_cols := by
  intro c hc
  rw [show validate_cols (chars "iex_hist") columns =
    selectCols tii_iex_hist_cols columns from rfl, selectCols_fst] at hc
  exact of_decide_eq_true (List.mem_filter.mp hc).2

theorem validate_eod_mem (columns : List Chars) :
    ∀ c ∈ (validate_cols (chars "eod") columns).1, c ∈ tii_eod_cols := by
  intro c hc
  rw [show validate_cols (chars "eod") columns =
    selectCols tii_eod_cols columns from rfl, selectCols_fst] at hc
  exact of_decide_eq_true (List.mem_filter.mp hc).2

/-- C7 counterexample: the claim promises one URL per input ticker for
every call, but when the first ticker's response crashes the loop (here:
a body that parses and then fails `set_index`, which is outside the
`try`), the call aborts after a single request — the second ticker's URL
is never issued. -/
theorem claim_C7_request_urls_cex :
    (get_stock_hist (fun _ => []) (fun _ => some (0 : Nat)) (fun _ => none)
      (fun b => some b) (fun _ => 1) [chars "AAPL", chars "MSFT"]
      (chars "daily") [] [] []).requests =
      [chars "https://api.tiingo.com/tiingo/daily/AAPL/prices?format=json&resampleFreq=daily"] := by
  decide

/-- C7 (amended): in every valid `get_stock_hist` call, each URL actually
issued is exactly the chosen base URL, then the ticker, then
`/prices?format=json`, then `&resampleFreq=<frequency>`, then
`&columns=<csv>` exactly when some requested column survived validation,
then `&startDate=<start>` when non-empty, then `&endDate=<send>` when
non-empty, in that order; the requests are issued for an initial segment
of the input tickers, and for every input ticker whenever the loop is not
aborted by an uncaught exception.  Substituting the ticker into the
pre-built template changes exactly the placeholder: every other part of
the query is the same function of the validated inputs for every ticker.
The columns component contains only names of the endpoint's whitelist, so
an invalid column name is never sent to the provider. -/
theorem claim_C7_request_urls {DF : Type} (fetch : Chars → Chars)
    (parse : Chars → Option DF) (setIndex : DF → Option DF)
    (jsonOf : Chars → Option Chars) (ncols : DF → Nat) (tickers : List Chars)
    (f start send : Chars) (columns : List Chars) (fc : FreqClass)
    (hfc : classifyFrequency f = fc) (hne : fc ≠ FreqClass.invalid)
    (hs : is_valid_date start = true) (he : is_valid_date send = true) :
    (∃ n, n ≤ tickers.length ∧
      (get_stock_hist fetch parse setIndex jsonOf ncols tickers f start send
          columns).requests =
        (tickers.take n).map (fun tk =>
          (endpointFor fc).getD [] ++ tk ++ chars "/prices?format=json" ++
            chars "&resampleFreq=" ++ f ++
            (if (validate_cols ((whitelistIdFor fc).getD []) columns).1 ≠ []
              then chars "&columns=" ++
                joinComma (validate_cols ((whitelistIdFor fc).getD [])
                  columns).1
            else []) ++
            (if start ≠ [] then chars "&startDate=" ++ start else []) ++
            (if send ≠ [] then chars "&endDate=" ++ send else []))) ∧
    (∀ svs : List (Chars × DF),
      (fetchLoop fetch parse setIndex jsonOf
        (histPreQuery f start send columns fc) tickers).outcome =
        Except.ok svs →
      (get_stock_hist fetch parse setIndex jsonOf ncols tickers f start send
          columns).requests =
        tickers.map (fun tk =>
          (endpointFor fc).getD [] ++ tk ++ chars "/prices?format=json" ++
            chars "&resampleFreq=" ++ f ++
            (if (validate_cols ((whitelistIdFor fc).getD []) columns).1 ≠ []
              then chars "&columns=" ++
                joinComma (validate_cols ((whitelistIdFor fc).getD [])
                  columns).1
            else []) ++
            (if start ≠ [] then chars "&startDate=" ++ start else []) ++
            (if send ≠ [] then chars "&endDate=" ++ send else []))) ∧
    (fc = FreqClass.intraday →
      ∀ c ∈ (validate_cols ((whitelistIdFor fc).getD []) columns).1,
        c ∈ tii_iex_hist_cols) ∧
    (fc = FreqClass.eodFixed →
      ∀ c ∈ (validate_cols ((whitelistIdFor fc).getD []) columns).1,
        c ∈ tii_eod_cols) := by
  cases fc with
  | invalid => exact absurd rfl hne
  | intraday =>
    have hreq : (get_stock_hist fetch parse setIndex jsonOf ncols tickers f
        start send columns).requests =
        (fetchLoop fetch parse setIndex jsonOf
          (build_pre_query ((endpointFor FreqClass.intraday).getD [])
            (validate_cols ((whitelistIdFor FreqClass.intraday).getD [])
              columns).1 start send f) tickers).requests := by
      rw [get_stock_hist_eq_of_valid fetch parse setIndex jsonOf ncols tickers
        f start send columns FreqClass.intraday hfc hne hs he]
    have hfun : (fun t => replaceTicker t
        (build_pre_query ((endpointFor FreqClass.intraday).getD [])
          (validate_cols ((whitelistIdFor FreqClass.intraday).getD [])
            columns).1 start send f)) =
        (fun tk => (endpointFor FreqClass.intraday).getD [] ++ tk ++
          chars "/prices?format=json" ++ chars "&resampleFreq=" ++ f ++
          (if (validate_cols ((whitelistIdFor FreqClass.intraday).getD [])
              columns).1 ≠ [] then
            chars "&columns=" ++ joinComma
              (validate_cols ((whitelistIdFor FreqClass.intraday).getD [])
                columns).1
          else []) ++
          (if start ≠ [] then chars "&startDate=" ++ start else []) ++
          (if send ≠ [] then chars "&endDate=" ++ send else [])) := by
      funext tk
      exact replaceTicker_pre_query _ _ start send f tk front_safe_iex
        (kAfterEAux_of_no_k f (no_k_freq_pattern f
          (classify_intraday_matches f hfc)))
        (fun x hx => no_k_iex_hist_cols x (validate_iex_hist_mem columns x hx))
        hs he
    refine ⟨?_, ?_, fun _ => validate_iex_hist_mem columns,
      fun hcontra => absurd hcontra (by decide)⟩
    · obtain ⟨n, hn, hr⟩ := fetchLoop_requests_take fetch parse setIndex
        jsonOf (build_pre_query ((endpointFor FreqClass.intraday).getD [])
          (validate_cols ((whitelistIdFor FreqClass.intraday).getD [])
            columns).1 start send f) tickers
      exact ⟨n, hn, by rw [hreq, hr, hfun]⟩
    · intro svs hloop
      have hloop2 : (fetchLoop fetch parse setIndex jsonOf
          (build_pre_query ((endpointFor FreqClass.intraday).getD [])
            (validate_cols ((whitelistIdFor FreqClass.intraday).getD [])
              columns).1 start send f) tickers).outcome =
          Except.ok svs := hloop
      rw [hreq, fetchLoop_ok_requests fetch parse setIndex jsonOf _ tickers
        svs hloop2, hfun]
  | eodFixed =>
    have hreq : (get_stock_hist fetch parse setIndex jsonOf ncols tickers f
        start send columns).requests =
        (fetchLoop fetch parse setIndex jsonOf
          (build_pre_query ((endpointFor FreqClass.eodFixed).getD [])
            (validate_cols ((whitelistIdFor FreqClass.eodFixed).getD [])
              columns).1 start send f) tickers).requests := by
      rw [get_stock_hist_eq_of_valid fetch parse setIndex jsonOf ncols tickers
        f start send columns FreqClass.eodFixed hfc hne hs he]
    have hfun : (fun t => replaceTicker t
        (build_pre_query ((endpointFor FreqClass.eodFixed).getD [])
          (validate_cols ((whitelistIdFor FreqClass.eodFixed).getD [])
            columns).1 start send f)) =
        (fun tk => (endpointFor FreqClass.eodFixed).getD [] ++ tk ++
          chars "/prices?format=json" ++ chars "&resampleFreq=" ++ f ++
          (if (validate_cols ((whitelistIdFor FreqClass.eodFixed).getD [])
              columns).1 ≠ [] then
            chars "&columns=" ++ joinComma
              (validate_cols ((whitelistIdFor FreqClass.eodFixed).getD [])
                columns).1
          else []) ++
          (if start ≠ [] then chars "&startDate=" ++ start else []) ++
          (if send ≠ [] then chars "&endDate=" ++ send else [])) := by
      funext tk
      exact replaceTicker_pre_query _ _ start send f tk front_safe_eod
        (kAfterE_freq_eod f (classify_eod_mem f hfc))
        (fun x hx => no_k_eod_cols x (validate_eod_mem columns x hx))
        hs he
    refine ⟨?_, ?_, fun hcontra => absurd hcontra (by decide),
      fun _ => validate_eod_mem columns⟩
    · obtain ⟨n, hn, hr⟩ := fetchLoop_requests_take fetch parse setIndex
        jsonOf (build_pre_query ((endpointFor FreqClass.eodFixed).getD [])
          (validate_cols ((whitelistIdFor FreqClass.eodFixed).getD [])
            columns).1 start send f) tickers
      exact ⟨n, hn, by rw [hreq, hr, hfun]⟩
    · intro svs hloop
      have hloop2 : (fetchLoop fetch parse setIndex jsonOf
          (build_pre_query ((endpointFor FreqClass.eodFixed).getD [])
            (validate_cols ((whitelistIdFor FreqClass.eodFixed).getD [])
              columns).1 start send f) tickers).outcome =
          Except.ok svs := hloop
      rw [hreq, fetchLoop_ok_requests fetch parse setIndex jsonOf _ tickers
        svs hloop2, hfun]

/-- Witness for the amended C7: a completing run with one ticker,
end-of-day frequency, a start date, one valid and one invalid requested
column; the issued URL is the expected literal, with the invalid column
absent. -/
theorem claim_C7_request_urls_witness :
    (get_stock_hist (fun _ => []) (fun _ => some (0 : Nat)) (fun d => some d)
      (fun b => some b) (fun _ => 1)
      [chars "AAPL"] (chars "daily") (chars "2024-01-02") []
      [chars "close", chars "bogus"]).requests =
      [chars "https://api.tiingo.com/tiingo/daily/AAPL/prices?format=json&resampleFreq=daily&columns=close&startDate=2024-01-02"] :=
  (((claim_C7_request_urls (fun _ => []) (fun _ => some (0 : Nat))
    (fun d => some d) (fun b => some b) (fun _ => 1)
    [chars "AAPL"] (chars "daily") (chars "2024-01-02") []
    [chars "close", chars "bogus"] FreqClass.eodFixed (by decide) (by decide)
    (by decide) (by decide)).2.1 [(chars "AAPL", 0)]) rfl).trans (by decide)

end TiingoModel
